import Mathlib

/-!
# Verification of the Fear & Greed backtest engine

Shallow embedding of `src/strategies/backtest.ts` (a sentiment-driven
trading-rule backtester) and proofs about it.

Modelling conventions:
* JavaScript `number` arithmetic on prices, cash, shares and sentiment values
  is modelled exactly over `ℚ` (the spec's testable properties are stated for
  exact arithmetic); `Date` values are modelled by their millisecond timestamp
  (`Int`, as returned by `Date.getTime()`).
* The calendar-day string `date.toISOString().split('T')[0]` used for exact
  date matching is modelled by the UTC day number `⌊ms / 86400000⌋`
  (two timestamps produce the same ISO day string iff they have the same
  floored day number).
* `Trade.reason` (a human-readable log string) and the `symbol` / debug
  telemetry fields are presentation-only and are not modelled; neither is
  consulted by any control flow.
* Fallible code (the `throw` on an empty / structurally invalid price series)
  is modelled by returning `Option`.
* `ℚ` division by zero is `0` in Lean; every theorem below either avoids the
  zero-denominator case or handles it explicitly.  The one place where the
  JavaScript semantics of `1/0 = +Infinity` matters (the annualized-return
  computation) is modelled separately by a small IEEE/ECMAScript value model
  (`JsNum`).
-/

/-- A point of the price series (`MarketDataPoint` in `fetchData.ts`):
`date` is the millisecond timestamp, `close` the closing price. -/
structure MarketDataPoint where
  date : Int
  close : ℚ
deriving DecidableEq

/-- A point of the sentiment series (`FearGreedDataPoint`): `value` is the
Fear & Greed index value.  The `classification` label is a display string,
never consulted by control flow, hence not modelled. -/
structure FearGreedDataPoint where
  date : Int
  value : ℚ
deriving DecidableEq

/-- The four strategy variants of `BacktestParams.strategyVariant`. -/
inductive StrategyVariant where
  | default
  | extremeOnly
  | extremeFearHold
  | combined
deriving DecidableEq

/-- `Trade.type`. -/
inductive TradeType where
  | buy
  | sell
deriving DecidableEq

/-- An executed trade (the `reason` display string is not modelled). -/
structure Trade where
  date : Int
  type : TradeType
  price : ℚ
  shares : ℚ
  value : ℚ
deriving DecidableEq

-- Constants of backtest.ts.  `FEAR_THRESHOLD` / `GREED_THRESHOLD` are read
-- from the environment with these defaults; the spec fixes the defaults
-- (fear=40, greed=85) and the two extreme thresholds are hard constants.

def FEAR_THRESHOLD : ℚ := 40

def GREED_THRESHOLD : ℚ := 85

def EXTREME_FEAR_THRESHOLD : ℚ := 20

def EXTREME_GREED_THRESHOLD : ℚ := 80

/-- 40% of remaining capital allocated on each lump-sum buy signal. -/
def ALLOCATION_PERCENTAGE : ℚ := 0.4

/-- Sell 30% of the position on each sell signal. -/
def SELL_PERCENTAGE : ℚ := 0.3

/-- Minimum profit fraction required before selling. -/
def MIN_PROFIT_PERCENT : ℚ := 0.10

/-- 50-period moving average for trend detection. -/
def TREND_MA_PERIOD : Nat := 50

def DAYS_IN_WEEK : ℚ := 7

/-- Milliseconds in a day (`1000 * 60 * 60 * 24`). -/
def MS_PER_DAY : Int := 86400000

/-- UTC day number of a millisecond timestamp; models the string
`date.toISOString().split('T')[0]` used for exact-date comparison. -/
def calendarDay (ms : Int) : Int := Int.fdiv ms MS_PER_DAY

/-- The `for`-loop of `findClosestFearGreedData` (lines 95–104): linear scan
tracking `closestIndex` / `minDiff` (`minDiff` starts at `Infinity`, modelled
by the `none` accumulator), keeping the earlier index on exact ties. -/
def closestScanLoop (timestamp : Int) :
    List FearGreedDataPoint → Nat → Option (Nat × Nat) → Option (Nat × Nat)
  | [], _, best => best
  | item :: rest, i, best =>
    let diff := (item.date - timestamp).natAbs
    let best' :=
      match best with
      | none => some (i, diff)
      | some (closestIndex, minDiff) =>
        if diff < minDiff then some (i, diff) else some (closestIndex, minDiff)
    closestScanLoop timestamp rest (i + 1) best'

/-- `findClosestFearGreedData` (lines 73–114): exact calendar-date match
first, else the linear scan for the minimum absolute time difference. -/
def findClosestFearGreedData (date : Int) (fearGreedData : List FearGreedDataPoint) :
    Option FearGreedDataPoint :=
  if fearGreedData.isEmpty then none
  else
    match fearGreedData.find? (fun item => calendarDay item.date == calendarDay date) with
    | some exactMatch => some exactMatch
    | none =>
      match closestScanLoop date fearGreedData 0 none with
      | some (closestIndex, _) => fearGreedData.get? closestIndex
      | none => none

/-- `calculateMaxDrawdown` (lines 119–145): fold over the equity curve
tracking `(maxDrawdown, peak)`, skipping the division when `peak ≤ 0`. -/
def calculateMaxDrawdown (equityCurve : List ℚ) : ℚ :=
  match equityCurve with
  | [] => 0
  | firstValue :: _ =>
    (equityCurve.foldl
      (fun acc value =>
        let maxDrawdown := acc.1
        let peak := acc.2
        if peak < value then (maxDrawdown, value)
        else if 0 < peak then (max maxDrawdown ((peak - value) / peak), peak)
        else (maxDrawdown, peak))
      (0, firstValue)).1

/-- `calculateMovingAverage` (lines 150–166).  The source start index
`Math.max(0, endIndex - periods + 1)` equals `endIndex + 1 - periods` in `ℕ`
subtraction (the guard ensures `periods ≤ endIndex + 1`, and `ℕ` subtraction
truncates at 0 exactly like the `max`). -/
def calculateMovingAverage (data : List MarketDataPoint) (periods : Nat) (endIndex : Nat) :
    Option ℚ :=
  if endIndex < periods - 1 ∨ periods ≤ 0 then none
  else
    let window := (List.range' (endIndex + 1 - periods) periods).filterMap
      (fun i => (data.get? i).map (·.close))
    if 0 < window.length then some (window.sum / window.length) else none

/-- `isInDowntrend` (lines 172–184).  The JavaScript falsiness checks
`if (!ma)` and `if (!currentPrice)` treat both `null`/`undefined` and `0`
as "no signal". -/
def isInDowntrend (data : List MarketDataPoint) (currentIndex : Nat) : Bool :=
  if currentIndex < TREND_MA_PERIOD then false
  else
    match calculateMovingAverage data TREND_MA_PERIOD currentIndex with
    | none => false
    | some ma =>
      if ma = 0 then false
      else
        match data.get? currentIndex with
        | none => false
        | some currentDay =>
          if currentDay.close = 0 then false
          else decide (currentDay.close < ma)

/-- `determineCooldownPeriod` (lines 189–213).  The sampling loop is
`for (let i = 1; i < Math.min(10, marketData.length); i++)`, i.e. gap
indices `1 .. min 10 n - 1` (at most nine gaps). -/
def determineCooldownPeriod (marketData : List MarketDataPoint) : Nat :=
  if marketData.length < 2 then 20
  else
    let dateDiffs : List ℚ := (List.range' 1 (min 10 marketData.length - 1)).filterMap
      (fun i =>
        match marketData.get? i, marketData.get? (i - 1) with
        | some current, some previous =>
          some (((current.date - previous.date : Int) : ℚ) / (MS_PER_DAY : ℚ))
        | _, _ => none)
    let avgDaysBetweenPoints := dateDiffs.sum / (dateDiffs.length : ℚ)
    if 20 < avgDaysBetweenPoints then 1
    else if 5 < avgDaysBetweenPoints then 3
    else 15

/-- `shouldInvestWeeklyAmount` (lines 218–252): the per-variant rules return
early; the downtrend check sits between them and the final `return false`. -/
def shouldInvestWeeklyAmount (fearGreedValue : Option ℚ) (inDowntrend : Bool)
    (strategyVariant : StrategyVariant) : Bool :=
  match fearGreedValue with
  | none => false
  | some v =>
    if strategyVariant = .default ∧ v ≤ FEAR_THRESHOLD then true
    else if strategyVariant = .extremeOnly ∧ v ≤ EXTREME_FEAR_THRESHOLD then true
    else if strategyVariant = .extremeFearHold ∧ v ≤ EXTREME_FEAR_THRESHOLD then true
    else if strategyVariant = .combined ∧
        (v ≤ FEAR_THRESHOLD ∨ v ≤ EXTREME_FEAR_THRESHOLD) then true
    else if inDowntrend ∧ EXTREME_FEAR_THRESHOLD < v then false
    else false

/-- `shouldInvestDouble` (lines 257–259). -/
def shouldInvestDouble (fearGreedValue : Option ℚ) : Bool :=
  match fearGreedValue with
  | none => false
  | some v => decide (v ≤ EXTREME_FEAR_THRESHOLD)

/-- The mutable simulation state of `runBacktest` (lines 360–387).
`capitalInjected` is spec-side ghost instrumentation for claim C2 only: it
follows the spec's words "sum of all capital ever injected" (lump sum, plus
the full amount added to `cash` at each contribution deployment — doubled
amount and folded-in accumulated cash included — plus each standalone
accumulated-cash release); it influences no other field. -/
structure SimState where
  trades : List Trade
  cash : ℚ
  shares : ℚ
  equityCurve : List ℚ
  lastBuyDate : Option Int
  lastBuyPrice : Option ℚ
  lastSellDate : Option Int
  totalInvested : ℚ
  skippedContributions : Nat
  totalContributions : Nat
  accumulatedCash : ℚ
  buyAndHoldCash : ℚ
  buyAndHoldShares : ℚ
  lastContributionDate : Int
  capitalInjected : ℚ
deriving DecidableEq

/-- `BacktestParams` (lines 4–12).  `symbol` is display-only and omitted; in
the source `strategyVariant`, `weeklyContribution` and `useLumpSum` are
optional with defaults `'default'`, `500`, `false` — here they are explicit. -/
structure BacktestParams where
  marketData : List MarketDataPoint
  fearGreedData : List FearGreedDataPoint
  initialCapital : ℚ
  strategyVariant : StrategyVariant
  weeklyContribution : ℚ
  useLumpSum : Bool
deriving DecidableEq

/-- The returned `StrategyResult` (lines 23–37), minus display/debug fields
(`symbol`, `strategyName`, `debugInfo`) and minus `annualizedReturn`, whose
floating-point computation is modelled separately by `annualizedReturnJs`
(it is a pure function of `totalReturn` and the first/last dates).
`capitalInjected` is the C2 ghost, carried through from `SimState`. -/
structure StrategyResult where
  trades : List Trade
  finalValue : ℚ
  totalReturn : ℚ
  maxDrawdown : ℚ
  buyAndHoldValue : ℚ
  buyAndHoldReturn : ℚ
  skippedContributions : Nat
  totalContributions : Nat
  totalInvested : ℚ
  capitalInjected : ℚ
deriving DecidableEq

/-- Initial simulation state (lines 360–387): cash and the equity-curve seed
are `initialCapital` in lump-sum mode and `0` otherwise; in lump-sum mode the
buy-and-hold comparison buys on the first day. -/
def initState (p : BacktestParams) (firstDayData : MarketDataPoint) : SimState where
  trades := []
  cash := if p.useLumpSum then p.initialCapital else 0
  shares := 0
  equityCurve := [if p.useLumpSum then p.initialCapital else 0]
  lastBuyDate := none
  lastBuyPrice := none
  lastSellDate := none
  totalInvested := if p.useLumpSum then p.initialCapital else 0
  skippedContributions := 0
  totalContributions := 0
  accumulatedCash := 0
  buyAndHoldCash := if p.useLumpSum then p.initialCapital else 0
  buyAndHoldShares := if p.useLumpSum then p.initialCapital / firstDayData.close else 0
  lastContributionDate := firstDayData.date
  capitalInjected := if p.useLumpSum then p.initialCapital else 0

/-- The repeated "buy shares immediately with all available cash" block
(lines 444–479 and, textually identical, lines 579–604): with fractional
shares enabled, spend all cash, record the buy date/price, append a buy. -/
def buyAllCash (currentDay : MarketDataPoint) (s : SimState) : SimState :=
  if 0 < s.cash then
    let sharesToBuy := s.cash / currentDay.close
    if 0 < sharesToBuy then
      let cost := sharesToBuy * currentDay.close
      { s with
        shares := s.shares + sharesToBuy
        cash := s.cash - cost
        lastBuyDate := some currentDay.date
        lastBuyPrice := some currentDay.close
        trades := s.trades ++ [⟨currentDay.date, .buy, currentDay.close, sharesToBuy, cost⟩] }
    else s
  else s

/-- The body of a fired weekly contribution (lines 404–486): bump the
counters, update buy-and-hold unconditionally, then either deploy the
contribution (optionally doubled, optionally folding in accumulated cash
during extreme fear) into an immediate buy, or defer it to
`accumulatedCash`. -/
def contributionFire (p : BacktestParams) (md : List MarketDataPoint) (i : Nat)
    (currentDay : MarketDataPoint) (fearGreedToday : Option FearGreedDataPoint)
    (s : SimState) : SimState :=
  let s : SimState := { s with
    totalContributions := s.totalContributions + 1
    lastContributionDate := currentDay.date
    buyAndHoldShares :=
      s.buyAndHoldShares + (s.buyAndHoldCash + p.weeklyContribution) / currentDay.close
    buyAndHoldCash := 0 }
  let inDowntrend := isInDowntrend md i
  if shouldInvestWeeklyAmount (fearGreedToday.map (·.value)) inDowntrend p.strategyVariant then
    let doubleInvestment := shouldInvestDouble (fearGreedToday.map (·.value))
    let amountToInvest := if doubleInvestment then p.weeklyContribution * 2
                          else p.weeklyContribution
    -- lines 430–437: fold accumulated cash into this deployment during extreme fear
    let foldAccumulated :=
      (match fearGreedToday.map (·.value) with
       | some v => decide (v ≤ EXTREME_FEAR_THRESHOLD)
       | none => false) && decide (0 < s.accumulatedCash)
    let amountToInvest := if foldAccumulated then amountToInvest + s.accumulatedCash
                          else amountToInvest
    let s : SimState := if foldAccumulated then
        { s with totalInvested := s.totalInvested + s.accumulatedCash, accumulatedCash := 0 }
      else s
    let s : SimState := { s with
      cash := s.cash + amountToInvest
      totalInvested := s.totalInvested + p.weeklyContribution
      capitalInjected := s.capitalInjected + amountToInvest }
    -- lines 444–479: buy immediately with the new contribution
    buyAllCash currentDay s
  else
    { s with
      accumulatedCash := s.accumulatedCash + p.weeklyContribution
      skippedContributions := s.skippedContributions + 1 }

/-- The sell branch (lines 515–562), applied only outside
`extreme-fear-hold`; requires held shares, a recorded last buy price, the
variant's greed condition and at least 10% unrealized profit; sells 30% of
the position. -/
def sellBlock (p : BacktestParams) (currentDay : MarketDataPoint)
    (fearGreedToday : FearGreedDataPoint) (s : SimState) : SimState :=
  if p.strategyVariant ≠ .extremeFearHold ∧ 0 < s.shares then
    match s.lastBuyPrice with
    | none => s
    | some lastBuyPrice =>
      let shouldSell :=
        if p.strategyVariant = .default ∧ GREED_THRESHOLD ≤ fearGreedToday.value then true
        else if p.strategyVariant = .extremeOnly ∧
            EXTREME_GREED_THRESHOLD ≤ fearGreedToday.value then true
        else if p.strategyVariant = .combined ∧
            (GREED_THRESHOLD ≤ fearGreedToday.value ∨
             EXTREME_GREED_THRESHOLD ≤ fearGreedToday.value) then true
        else false
      if shouldSell then
        let currentProfit := (currentDay.close - lastBuyPrice) / lastBuyPrice
        if MIN_PROFIT_PERCENT ≤ currentProfit then
          let sharesToSell := s.shares * SELL_PERCENTAGE
          let sellValue := sharesToSell * currentDay.close
          if 0 < sharesToSell then
            { s with
              shares := s.shares - sharesToSell
              cash := s.cash + sellValue
              lastSellDate := some currentDay.date
              trades := s.trades ++
                [⟨currentDay.date, .sell, currentDay.close, sharesToSell, sellValue⟩] }
          else s
        else s
      else s
  else s

/-- The standalone accumulated-cash release during extreme fear
(lines 565–605): periodic mode only, blocked by cooldown. -/
def accumulatedCashRelease (p : BacktestParams) (currentDay : MarketDataPoint)
    (fearGreedToday : FearGreedDataPoint) (inCooldown : Bool) (s : SimState) : SimState :=
  if ¬p.useLumpSum ∧ 0 < s.accumulatedCash ∧
      fearGreedToday.value ≤ EXTREME_FEAR_THRESHOLD ∧ inCooldown = false then
    let cashToInvest := s.accumulatedCash
    let s : SimState := { s with
      cash := s.cash + cashToInvest
      accumulatedCash := 0
      totalInvested := s.totalInvested + cashToInvest
      capitalInjected := s.capitalInjected + cashToInvest }
    -- lines 579–604: buy immediately with the released cash
    buyAllCash currentDay s
  else s

/-- The lump-sum buy branch (lines 607–677): sentiment-scaled allocation of
current cash, blocked by cooldown and (unless extreme fear or
extreme-fear-hold) by a downtrend. -/
def lumpSumBuyBlock (p : BacktestParams) (currentDay : MarketDataPoint)
    (fearGreedToday : FearGreedDataPoint) (inCooldown inDowntrend : Bool)
    (s : SimState) : SimState :=
  if p.useLumpSum then
    let shouldBuy :=
      if p.strategyVariant = .default ∧ fearGreedToday.value ≤ FEAR_THRESHOLD then true
      else if p.strategyVariant = .extremeOnly ∧
          fearGreedToday.value ≤ EXTREME_FEAR_THRESHOLD then true
      else if p.strategyVariant = .extremeFearHold ∧
          fearGreedToday.value ≤ EXTREME_FEAR_THRESHOLD then true
      else if p.strategyVariant = .combined ∧
          (fearGreedToday.value ≤ FEAR_THRESHOLD ∨
           fearGreedToday.value ≤ EXTREME_FEAR_THRESHOLD) then true
      else false
    if shouldBuy ∧ 0 < s.cash ∧ inCooldown = false ∧
        (p.strategyVariant = .extremeFearHold ∨ inDowntrend = false ∨
         fearGreedToday.value ≤ EXTREME_FEAR_THRESHOLD) then
      let fearLevel := max 0 (FEAR_THRESHOLD - fearGreedToday.value) / FEAR_THRESHOLD
      let allocationMultiplier :=
        if fearGreedToday.value ≤ EXTREME_FEAR_THRESHOLD then
          ALLOCATION_PERCENTAGE + fearLevel * 0.3
        else
          ALLOCATION_PERCENTAGE + fearLevel * 0.1
      let cashToSpend := s.cash * allocationMultiplier
      let sharesToBuy := cashToSpend / currentDay.close
      if 0 < sharesToBuy then
        let cost := sharesToBuy * currentDay.close
        { s with
          shares := s.shares + sharesToBuy
          cash := s.cash - cost
          lastBuyDate := some currentDay.date
          lastBuyPrice := some currentDay.close
          trades := s.trades ++ [⟨currentDay.date, .buy, currentDay.close, sharesToBuy, cost⟩] }
      else s
    else s
  else s

/-- Weekly-contribution scheduling (lines 400–488): in periodic mode, a
contribution fires once at least seven days have passed since the last
one. -/
def contributionStep (p : BacktestParams) (md : List MarketDataPoint) (i : Nat)
    (currentDay : MarketDataPoint) (fearGreedToday : Option FearGreedDataPoint)
    (s : SimState) : SimState :=
  if ¬p.useLumpSum ∧
      DAYS_IN_WEEK ≤ ((currentDay.date - s.lastContributionDate : Int) : ℚ) /
        (MS_PER_DAY : ℚ) then
    contributionFire p md i currentDay fearGreedToday s
  else s

/-- Equity-curve append (lines 491–492). -/
def equityAppend (currentDay : MarketDataPoint) (s : SimState) : SimState :=
  { s with equityCurve := s.equityCurve ++ [s.cash + s.shares * currentDay.close] }

/-- The cooldown flag (lines 495–501): inside the buy window since the last
buy, or inside the half-length (`Math.ceil(cooldownPeriods / 2)`, i.e.
`(cooldownPeriods + 1) / 2` in ℕ) sell window since the last sell. -/
def inCooldownFlag (cooldownPeriods : Nat) (currentDay : MarketDataPoint)
    (s : SimState) : Bool :=
  (match s.lastBuyDate with
   | some lastBuyDate =>
     decide (currentDay.date - lastBuyDate < (cooldownPeriods : Int) * MS_PER_DAY)
   | none => false) ||
  (match s.lastSellDate with
   | some lastSellDate =>
     decide (currentDay.date - lastSellDate <
       (((cooldownPeriods + 1) / 2 : Nat) : Int) * MS_PER_DAY)
   | none => false)

/-- The per-day work after the current day and its sentiment lookup are
resolved (lines 399–677): weekly-contribution scheduling, equity-curve
append, cooldown flags, the `continue` when no sentiment point resolves,
then the sell / accumulated-cash-release / lump-sum-buy branches, in source
order. -/
def dayTail (p : BacktestParams) (cooldownPeriods : Nat) (md : List MarketDataPoint)
    (i : Nat) (currentDay : MarketDataPoint)
    (fearGreedToday : Option FearGreedDataPoint) (s : SimState) : SimState :=
  let s : SimState := equityAppend currentDay
    (contributionStep p md i currentDay fearGreedToday s)
  let inCooldown := inCooldownFlag cooldownPeriods currentDay s
  match fearGreedToday with
  | none => s
  | some fg =>
    let inDowntrend := isInDowntrend md i
    lumpSumBuyBlock p currentDay fg inCooldown inDowntrend
      (accumulatedCashRelease p currentDay fg inCooldown
        (sellBlock p currentDay fg s))

/-- One iteration of the trading-day loop (lines 390–678). -/
def stepDay (p : BacktestParams) (cooldownPeriods : Nat) (md : List MarketDataPoint)
    (s : SimState) (i : Nat) : SimState :=
  match md.get? i with
  | none => s
  | some currentDay =>
    dayTail p cooldownPeriods md i currentDay
      (findClosestFearGreedData currentDay.date p.fearGreedData) s

/-- The state after the first `k` iterations of the trading-day loop (the
head fallback is irrelevant: it is only reached for an empty series, where
`runBacktestQ` fails fast before the loop). -/
def simStateAfter (p : BacktestParams) (k : Nat) : SimState :=
  (List.range k).foldl
    (stepDay p (determineCooldownPeriod p.marketData) p.marketData)
    (initState p (p.marketData.headD ⟨0, 0⟩))

/-- The end-of-run cash sweep (lines 687–714): one final buy with any
remaining cash at the last price. -/
def finalSweep (finalDay : MarketDataPoint) (s : SimState) : SimState :=
  if 0 < s.cash then
    let finalSharesToBuy := s.cash / finalDay.close
    if 0 < finalSharesToBuy then
      let cost := finalSharesToBuy * finalDay.close
      { s with
        shares := s.shares + finalSharesToBuy
        cash := s.cash - cost
        trades := s.trades ++ [⟨finalDay.date, .buy, finalDay.close, finalSharesToBuy, cost⟩] }
    else s
  else s

/-- The final metrics (lines 717–739) assembled from the post-sweep state. -/
def mkStrategyResult (p : BacktestParams) (finalDay : MarketDataPoint) (s : SimState) :
    StrategyResult :=
  let finalValue := s.cash + s.shares * finalDay.close + s.accumulatedCash
  let totalInvested :=
    if ¬p.useLumpSum then s.totalInvested + s.accumulatedCash else s.totalInvested
  let totalReturn := finalValue / totalInvested - 1
  let buyAndHoldValue := s.buyAndHoldShares * finalDay.close
  { trades := s.trades
    finalValue := finalValue
    totalReturn := totalReturn
    maxDrawdown := calculateMaxDrawdown s.equityCurve
    buyAndHoldValue := buyAndHoldValue
    buyAndHoldReturn := buyAndHoldValue / totalInvested - 1
    skippedContributions := s.skippedContributions
    totalContributions := s.totalContributions
    totalInvested := totalInvested
    capitalInjected := s.capitalInjected }

/-- `runBacktest` (lines 264–760), minus the separately-modelled
floating-point `annualizedReturn`: fail fast on an empty series, run the
day loop, sweep remaining cash, then compute the final metrics. -/
def runBacktestQ (p : BacktestParams) : Option StrategyResult :=
  match p.marketData.getLast? with
  | none => none
  | some finalDay =>
    some (mkStrategyResult p finalDay (finalSweep finalDay (simStateAfter p p.marketData.length)))

/-! ## JavaScript number model for the annualized-return computation

`runBacktest` computes (lines 728–732)
`annualizedReturn = Math.pow(1 + totalReturn, 1 / yearFraction) - 1` with
`yearFraction = (endMs - startMs) / (1000*60*60*24*365)`.  All quantities are
IEEE doubles; when the series has zero calendar duration, `yearFraction` is
`+0`, `1 / +0 = +Infinity`, and ECMAScript `Math.pow` with exponent
`+Infinity` returns `+Infinity` (|base| > 1), `NaN` (|base| = 1) or `+0`
(|base| < 1).  The model below captures exactly that case; for a nonzero
duration the result is a transcendental real outside the exact model and is
returned as `none`. -/

/-- A JavaScript number: finite (exact value), an infinity, or `NaN`. -/
inductive JsNum where
  | fin (q : ℚ)
  | posInf
  | negInf
  | nan
deriving DecidableEq

/-- Subtract the finite constant 1 (the trailing `- 1` of line 732):
infinities and `NaN` absorb the subtraction. -/
def jsSub1 : JsNum → JsNum
  | .fin q => .fin (q - 1)
  | .posInf => .posInf
  | .negInf => .negInf
  | .nan => .nan

/-- ECMAScript `Math.pow(base, +Infinity)` for a finite base. -/
def jsPowInfExp (base : ℚ) : JsNum :=
  if 1 < |base| then .posInf
  else if |base| = 1 then .nan
  else .fin 0

/-- The annualized-return computation of lines 729–732 on JavaScript
numbers.  `some` is returned exactly when the model fully determines the
IEEE result, i.e. in the zero-duration case (`yearFraction = 0`, so the
exponent `1 / yearFraction` is `+Infinity`). -/
def annualizedReturnJs (totalReturn : ℚ) (startMs endMs : Int) : Option JsNum :=
  let yearFraction : ℚ := ((endMs - startMs : Int) : ℚ) / ((1000 * 60 * 60 * 24 * 365 : Int) : ℚ)
  if yearFraction = 0 then some (jsSub1 (jsPowInfExp (1 + totalReturn)))
  else none

/-! ## Specification-side definitions

Each of the following is written from a claim's words (not from the
source) and is compared against the corresponding embedded function. -/

/-- C7, claim side: first exact calendar-date match, else the point with
minimum absolute time difference, ties broken towards the lowest original
index (`List.argmin` keeps the first minimizer); `none` iff the sequence is
empty. -/
def findClosestFearGreedSpec (date : Int) (fearGreedData : List FearGreedDataPoint) :
    Option FearGreedDataPoint :=
  match fearGreedData.find? (fun item => calendarDay item.date == calendarDay date) with
  | some exactMatch => some exactMatch
  | none => fearGreedData.argmin (fun item => (item.date - date).natAbs)

/-- All consecutive gaps of the price series, in days. -/
def gapsInDays (marketData : List MarketDataPoint) : List ℚ :=
  (marketData.zip marketData.tail).map
    (fun pair => ((pair.2.date - pair.1.date : Int) : ℚ) / (MS_PER_DAY : ℚ))

/-- Cooldown classification of an average-gap sample (shared by the claim
formulation and its amendment): avg > 20 days → 1, avg ∈ (5, 20] → 3,
avg ≤ 5 → 15. -/
def classifyGapSample (sample : List ℚ) : Nat :=
  let avg := sample.sum / (sample.length : ℚ)
  if 20 < avg then 1
  else if 5 < avg then 3
  else 15

/-- C5, claim side as stated: average of up to the FIRST TEN consecutive
gaps (`min 10 (n-1)` of them), fallback 20 below two points. -/
def cooldownSpecTenGaps (marketData : List MarketDataPoint) : Nat :=
  if marketData.length < 2 then 20
  else classifyGapSample ((gapsInDays marketData).take (min 10 (marketData.length - 1)))

/-- C5, amended: the code's sampling loop runs over gap indices
`1 .. min 10 n - 1`, i.e. up to the first NINE gaps. -/
def cooldownSpecNineGaps (marketData : List MarketDataPoint) : Nat :=
  if marketData.length < 2 then 20
  else classifyGapSample ((gapsInDays marketData).take (min 10 marketData.length - 1))

/-- C9, claim side: the drawdown terms `(peak_i - v_i) / peak_i` where
`peak_i` is the running maximum up to and including index `i`, initialized
to the first equity-curve value.  (The claim's zero-peak skip cannot fire
under the claim's all-positive hypothesis.) -/
def drawdownTerms : ℚ → List ℚ → List ℚ
  | _, [] => []
  | peak, value :: rest =>
    let peak' := max peak value
    ((peak' - value) / peak') :: drawdownTerms peak' rest

/-- C9, claim side: the maximum of the drawdown terms. -/
def maxDrawdownSpec (equityCurve : List ℚ) : ℚ :=
  match equityCurve with
  | [] => 0
  | firstValue :: _ => (drawdownTerms firstValue equityCurve).foldl max 0

/-! ## Invariant predicates and well-formed parameters -/

/-- Well-formed backtest inputs: nonnegative capital and contribution,
positive prices, sentiment values in the documented `0–100` range (only the
lower bound is ever needed). -/
def ValidParams (p : BacktestParams) : Prop :=
  0 ≤ p.initialCapital ∧ 0 ≤ p.weeklyContribution ∧
  (∀ pt ∈ p.marketData, 0 < pt.close) ∧
  (∀ f ∈ p.fearGreedData, 0 ≤ f.value)

/-- C3's ledger invariant: cash, shares and deferred (accumulated) cash are
never negative. -/
def LedgerOK (s : SimState) : Prop :=
  0 ≤ s.cash ∧ 0 ≤ s.shares ∧ 0 ≤ s.accumulatedCash

/-- C2's accounting invariant: injected-but-uncounted cash cannot exist —
`totalInvested` plus still-deferred cash always equals the initial capital
(lump-sum mode) plus the regular contribution amount once per fired
contribution; and lump-sum mode never fires contributions. -/
def ContributionAccounting (p : BacktestParams) (s : SimState) : Prop :=
  s.totalInvested + s.accumulatedCash =
    (if p.useLumpSum then p.initialCapital else 0) +
      p.weeklyContribution * (s.totalContributions : ℚ) ∧
  (p.useLumpSum = true → s.accumulatedCash = 0 ∧ s.totalContributions = 0)

/-- C6's invariant: the trade log holds only buys. -/
def BuysOnly (s : SimState) : Prop := ∀ t ∈ s.trades, t.type = TradeType.buy

/-- C10's invariant: before the first trade there are no shares and no
recorded buy price (so a sell cannot fire), and once the log is nonempty its
first entry is a buy. -/
def TradeLogWellFormed (s : SimState) : Prop :=
  (s.trades = [] → s.shares = 0 ∧ s.lastBuyPrice = none) ∧
  (∀ t, s.trades.head? = some t → t.type = TradeType.buy)

/-- The bisimulation relation between the source scan accumulator
`(closestIndex, minDiff)` and the `List.argmin` accumulator. -/
def ScanInv (orig : List FearGreedDataPoint) (f : FearGreedDataPoint → Nat)
    (acc : Option (Nat × Nat)) (acc' : Option FearGreedDataPoint) : Prop :=
  match acc, acc' with
  | none, none => True
  | some (closestIndex, minDiff), some e =>
    orig.get? closestIndex = some e ∧ minDiff = f e
  | _, _ => False

/-! ## Concrete inputs used by counterexamples and witnesses -/

/-- Two price points seven days apart, extreme fear (value 10) on the second
day, periodic mode with the default $500 weekly contribution: the second day
fires a doubled contribution. -/
def c2p : BacktestParams :=
  { marketData := [⟨0, 100⟩, ⟨7 * 86400000, 100⟩]
    fearGreedData := [⟨7 * 86400000, 10⟩]
    initialCapital := 0
    strategyVariant := .default
    weeklyContribution := 500
    useLumpSum := false }

/-- A single price point, lump-sum mode, no sentiment data: the whole run is
the final cash sweep (one buy, zero return, zero calendar duration). -/
def c4p : BacktestParams :=
  { marketData := [⟨0, 100⟩]
    fearGreedData := []
    initialCapital := 1000
    strategyVariant := .default
    weeklyContribution := 500
    useLumpSum := true }

/-- Eleven price points: nine one-day gaps followed by one hundred-day gap.
The code's nine-gap sample averages 1 day; the claim's ten-gap sample
averages 10.9 days. -/
def c5md : List MarketDataPoint :=
  (List.range 10).map (fun i => ⟨(i : Int) * 86400000, 100⟩) ++ [⟨109 * 86400000, 100⟩]

/-- The C2 scenario run under `extreme-fear-hold` (produces one buy). -/
def c6p : BacktestParams :=
  { marketData := [⟨0, 100⟩, ⟨7 * 86400000, 100⟩]
    fearGreedData := [⟨7 * 86400000, 10⟩]
    initialCapital := 0
    strategyVariant := .extremeFearHold
    weeklyContribution := 500
    useLumpSum := false }

/-- A single price point, lump-sum mode, sentiment 30 (fear but not extreme
fear) on that day: the day-0 buy fires at a 42.5% allocation, and the final
sweep buys the rest — two buy trades. -/
def c8p : BacktestParams :=
  { marketData := [⟨0, 100⟩]
    fearGreedData := [⟨0, 30⟩]
    initialCapital := 1000
    strategyVariant := .default
    weeklyContribution := 500
    useLumpSum := true }

/-- Placeholder result for total extraction of concrete runs. -/
def emptyStrategyResult : StrategyResult :=
  { trades := []
    finalValue := 0
    totalReturn := 0
    maxDrawdown := 0
    buyAndHoldValue := 0
    buyAndHoldReturn := 0
    skippedContributions := 0
    totalContributions := 0
    totalInvested := 0
    capitalInjected := 0 }

/-- The concrete result of running `c2p`. -/
def c2res : StrategyResult := (runBacktestQ c2p).getD emptyStrategyResult

/-- The concrete result of running `c6p`. -/
def c6res : StrategyResult := (runBacktestQ c6p).getD emptyStrategyResult

/-- Placeholder trade for total extraction of the first log entry. -/
def emptyTrade : Trade := ⟨0, .buy, 0, 0, 0⟩

/-! ## Theorems -/

-- Kernel evaluation of concrete runs needs the arithmetic on `ℚ` to unfold;
-- Batteries marks it `@[irreducible]` purely as an elaboration-performance
-- default.
set_option allowUnsafeReducibility true in
attribute [semireducible] Rat.add Rat.mul Rat.inv Rat.sub Rat.ofScientific

/-- Projection of the assembled result: the trade log. -/
theorem mkStrategyResult_trades (p : BacktestParams) (fd : MarketDataPoint) (s : SimState) :
    (mkStrategyResult p fd s).trades = s.trades := rfl

/-- Projection of the assembled result: the contribution counter. -/
theorem mkStrategyResult_totalContributions (p : BacktestParams) (fd : MarketDataPoint)
    (s : SimState) :
    (mkStrategyResult p fd s).totalContributions = s.totalContributions := rfl

/-- Projection of the assembled result: `totalInvested` folds leftover
accumulated cash in periodic mode (line 722). -/
theorem mkStrategyResult_totalInvested (p : BacktestParams) (fd : MarketDataPoint)
    (s : SimState) :
    (mkStrategyResult p fd s).totalInvested =
      if ¬p.useLumpSum then s.totalInvested + s.accumulatedCash else s.totalInvested := rfl

/-- Projection of the assembled result: `finalValue` (line 717). -/
theorem mkStrategyResult_finalValue (p : BacktestParams) (fd : MarketDataPoint)
    (s : SimState) :
    (mkStrategyResult p fd s).finalValue =
      s.cash + s.shares * fd.close + s.accumulatedCash := rfl

/-- Projection of the assembled result: `totalReturn` (line 726). -/
theorem mkStrategyResult_totalReturn (p : BacktestParams) (fd : MarketDataPoint)
    (s : SimState) :
    (mkStrategyResult p fd s).totalReturn =
      (s.cash + s.shares * fd.close + s.accumulatedCash) /
        (if ¬p.useLumpSum then s.totalInvested + s.accumulatedCash else s.totalInvested) -
        1 := rfl

/-- C1 (counterexample): with the market in a downtrend and sentiment 30 —
strictly above the extreme-fear threshold 20 — the default variant still
returns `true`: the per-variant rule returns before the claimed downtrend
veto is ever consulted, so the veto does not override it. -/
theorem c1_counterexample :
    shouldInvestWeeklyAmount (some 30) true StrategyVariant.default = true := by
  decide

/-- C1 (amended): the downtrend veto of `shouldInvestWeeklyAmount` is dead
code — the per-variant rules return early, and once they have all declined
the function returns `false` with or without the veto — so the weekly
invest-now decision never depends on the downtrend flag; in a downtrend with
sentiment above the extreme-fear threshold it returns `false` exactly when
no per-variant rule fires. -/
theorem c1_decision_ignores_downtrend :
    ∀ (fearGreedValue : Option ℚ) (b₁ b₂ : Bool) (variant : StrategyVariant),
      shouldInvestWeeklyAmount fearGreedValue b₁ variant =
        shouldInvestWeeklyAmount fearGreedValue b₂ variant := by
  intro v b₁ b₂ variant
  cases v with
  | none => rfl
  | some x =>
    simp only [shouldInvestWeeklyAmount]
    split_ifs <;> rfl

/-- C5 (counterexample): on eleven points with nine one-day gaps and a final
hundred-day gap, the code samples only the first nine gaps (average 1 day →
cooldown 15), while the claimed ten-gap sample averages 10.9 days and would
classify as cooldown 3. -/
theorem c5_counterexample :
    determineCooldownPeriod c5md = 15 ∧ cooldownSpecTenGaps c5md = 3 ∧ (15 : Nat) ≠ 3 := by
  decide

/-- C2 (counterexample): in the `c2p` run the second day fires a doubled
(extreme-fear) contribution — $1000 of cash is injected into the portfolio —
but `totalInvested` counts only the regular $500 amount, so it does not
equal the capital ever injected. -/
theorem c2_counterexample :
    (runBacktestQ c2p).map (fun r => (r.totalInvested, r.capitalInjected)) =
        some (500, 1000) ∧
      (500 : ℚ) ≠ 1000 := by
  decide

/-- C8 (counterexample): a single-point lump-sum run with a matching
sentiment value of 30 produces TWO buy trades (a 42.5%-allocation buy of
$425 on the day, then the $575 final sweep), not exactly one. -/
theorem c8_counterexample :
    (runBacktestQ c8p).map (fun r => r.trades.length) = some 2 ∧ (2 : Nat) ≠ 1 := by
  decide

/-- C4 (counterexample): on a zero-duration series (`c4p`, a single price
point) the run's total return is 0 and the annualized-return computation
evaluates to `NaN` — `Math.pow(1, +Infinity) - 1` — which is propagated into
the result, not a 0/undefined sentinel. -/
theorem c4_counterexample :
    (runBacktestQ c4p).map
        (fun r => annualizedReturnJs r.totalReturn
          (c4p.marketData.headD ⟨0, 0⟩).date (c4p.marketData.getLastD ⟨0, 0⟩).date) =
        some (some JsNum.nan) ∧
      JsNum.nan ≠ JsNum.fin 0 := by
  decide

/-- The source's linear scan (tracking index and minimum difference, first
index winning ties) is in bisimulation with `List.argmin`'s accumulator. -/
theorem closestScanLoop_argAux (d : Int) :
    ∀ (t orig : List FearGreedDataPoint) (i : Nat) (acc : Option (Nat × Nat))
      (acc' : Option FearGreedDataPoint),
      (∀ k, t.get? k = orig.get? (i + k)) →
      ScanInv orig (fun item => (item.date - d).natAbs) acc acc' →
      ScanInv orig (fun item => (item.date - d).natAbs) (closestScanLoop d t i acc)
        (t.foldl (List.argAux fun b c =>
          (fun item => (item.date - d).natAbs) b < (fun item => (item.date - d).natAbs) c)
          acc') := by
  intro t
  induction t with
  | nil => intro orig i acc acc' _ hinv; exact hinv
  | cons p rest ih =>
    intro orig i acc acc' hsub hinv
    have hp : orig.get? i = some p := by
      have h0 := hsub 0
      simpa using h0.symm
    simp only [closestScanLoop, List.foldl_cons]
    apply ih orig (i + 1)
    · intro k
      have hk := hsub (k + 1)
      simpa [Nat.add_assoc, Nat.add_comm 1 k] using hk
    · match acc, acc', hinv with
      | none, none, _ =>
        exact ⟨hp, rfl⟩
      | some (closestIndex, minDiff), some e, ⟨hidx, hdiff⟩ =>
        simp only [List.argAux]
        subst hdiff
        by_cases hlt : (p.date - d).natAbs < (e.date - d).natAbs
        · simp only [if_pos hlt]
          exact ⟨hp, rfl⟩
        · simp only [if_neg hlt]
          exact ⟨hidx, rfl⟩

/-- C7 (confirmed): `findClosestFearGreedData` equals its contract — the
first point whose calendar date exactly matches the target, else the point
with minimum absolute time difference (exact ties broken towards the lowest
original index, as `List.argmin` does), and no match exactly on the empty
sequence. -/
theorem findClosestFearGreedData_eq_spec (date : Int) (l : List FearGreedDataPoint) :
    findClosestFearGreedData date l = findClosestFearGreedSpec date l := by
  unfold findClosestFearGreedData findClosestFearGreedSpec
  cases l with
  | nil => rfl
  | cons a rest =>
    simp only [List.isEmpty_cons, Bool.false_eq_true, if_false]
    cases hfind : (a :: rest).find? (fun item => calendarDay item.date == calendarDay date) with
    | some m => rfl
    | none =>
      have h := closestScanLoop_argAux date (a :: rest) (a :: rest) 0 none none
        (fun k => by simp) trivial
      rw [List.argmin]
      revert h
      cases hscan : closestScanLoop date (a :: rest) 0 none with
      | none =>
        cases hfold : (a :: rest).foldl (List.argAux fun b c =>
            (b.date - date).natAbs < (c.date - date).natAbs) none with
        | none => intro _; rfl
        | some e => intro h; exact absurd h (by simp [ScanInv])
      | some best =>
        obtain ⟨closestIndex, minDiff⟩ := best
        cases hfold : (a :: rest).foldl (List.argAux fun b c =>
            (b.date - date).natAbs < (c.date - date).natAbs) none with
        | none => intro h; exact absurd h (by simp [ScanInv])
        | some e => intro h; exact h.1

/-- The gap sample built by the sampling loop (gap indices `1 .. k`) is the
first-`k` prefix of the consecutive-gap list. -/
theorem dateDiffs_eq_gaps_take (md : List MarketDataPoint) :
    ∀ k : Nat, k + 1 ≤ md.length →
      (List.range' 1 k).filterMap (fun i =>
        match md.get? i, md.get? (i - 1) with
        | some current, some previous =>
          some (((current.date - previous.date : Int) : ℚ) / (MS_PER_DAY : ℚ))
        | _, _ => none) =
      (gapsInDays md).take k := by
  intro k
  induction k with
  | zero => intro _; rfl
  | succ k ih =>
    intro hk
    have hk1 : k + 1 < md.length := by omega
    have hk0 : k < md.length := by omega
    rw [List.range'_concat, List.filterMap_append, ih (by omega), List.take_succ]
    congr 1
    have ha : md.get? k = some (md[k]) := by
      rw [List.get?_eq_getElem?]
      exact List.getElem?_eq_getElem hk0
    have hb : md.get? (k + 1) = some (md[k + 1]) := by
      rw [List.get?_eq_getElem?]
      exact List.getElem?_eq_getElem hk1
    have hzip : (md.zip md.tail)[k]? = some (md[k], md[k + 1]) := by
      rw [List.getElem?_zip_eq_some]
      refine ⟨List.getElem?_eq_getElem hk0, ?_⟩
      rw [List.getElem?_tail]
      exact List.getElem?_eq_getElem hk1
    have hgap : (gapsInDays md)[k]? =
        some ((((md[k + 1]).date - (md[k]).date : Int) : ℚ) / (MS_PER_DAY : ℚ)) := by
      unfold gapsInDays
      rw [List.getElem?_map, hzip]
      rfl
    have h1k : 1 + 1 * k = k + 1 := by omega
    simp only [h1k, List.filterMap_cons, List.filterMap_nil, hb,
      Nat.add_sub_cancel, ha, hgap, Option.toList_some]

/-- C5 (amended): `determineCooldownPeriod` classifies exactly as claimed
(avg > 20 days → 1, avg ∈ (5, 20] → 3, avg ≤ 5 → 15, fewer than two points
→ 20) but over the average of up to the first NINE consecutive gaps — the
sampling loop `for (i = 1; i < Math.min(10, length); i++)` collects
`min 10 n - 1` gaps, not ten. -/
theorem determineCooldownPeriod_eq_nineGapSpec (md : List MarketDataPoint) :
    determineCooldownPeriod md = cooldownSpecNineGaps md := by
  unfold determineCooldownPeriod cooldownSpecNineGaps
  by_cases h : md.length < 2
  · simp [h]
  · simp only [if_neg h]
    rw [dateDiffs_eq_gaps_take md (min 10 md.length - 1) (by omega)]
    rfl

/-- The drawdown fold computes the running maximum of the claim's drawdown
terms (positive running peak). -/
theorem drawdown_fold_eq_terms (l : List ℚ) :
    ∀ (m pk : ℚ), 0 < pk → 0 ≤ m →
      (l.foldl
        (fun acc value =>
          let maxDrawdown := acc.1
          let peak := acc.2
          if peak < value then (maxDrawdown, value)
          else if 0 < peak then (max maxDrawdown ((peak - value) / peak), peak)
          else (maxDrawdown, peak))
        (m, pk)).1 =
      (drawdownTerms pk l).foldl max m := by
  induction l with
  | nil => intro m pk _ _; rfl
  | cons v rest ih =>
    intro m pk hpk hm
    simp only [List.foldl_cons, drawdownTerms]
    by_cases hv : pk < v
    · have hmax : max pk v = v := max_eq_right (le_of_lt hv)
      rw [if_pos hv, hmax, sub_self, zero_div, max_eq_left hm]
      exact ih m v (lt_trans hpk hv) hm
    · have hmax : max pk v = pk := max_eq_left (not_lt.mp hv)
      rw [if_neg hv, if_pos hpk, hmax]
      exact ih (max m ((pk - v) / pk)) pk hpk (le_trans hm (le_max_left _ _))

/-- The drawdown fold stays within `[0, 1]` on positive data. -/
theorem drawdown_fold_bounds (l : List ℚ) :
    ∀ (m pk : ℚ), 0 < pk → 0 ≤ m → m ≤ 1 → (∀ v ∈ l, 0 < v) →
      0 ≤ (l.foldl
        (fun acc value =>
          let maxDrawdown := acc.1
          let peak := acc.2
          if peak < value then (maxDrawdown, value)
          else if 0 < peak then (max maxDrawdown ((peak - value) / peak), peak)
          else (maxDrawdown, peak))
        (m, pk)).1 ∧
      (l.foldl
        (fun acc value =>
          let maxDrawdown := acc.1
          let peak := acc.2
          if peak < value then (maxDrawdown, value)
          else if 0 < peak then (max maxDrawdown ((peak - value) / peak), peak)
          else (maxDrawdown, peak))
        (m, pk)).1 ≤ 1 := by
  induction l with
  | nil => intro m pk _ hm hm1 _; exact ⟨hm, hm1⟩
  | cons v rest ih =>
    intro m pk hpk hm hm1 hpos
    have hv : 0 < v := hpos v (by simp)
    have hrest : ∀ x ∈ rest, 0 < x := fun x hx => hpos x (by simp [hx])
    simp only [List.foldl_cons]
    by_cases hlt : pk < v
    · rw [if_pos hlt]
      exact ih m v hv hm hm1 hrest
    · rw [if_neg hlt, if_pos hpk]
      refine ih _ pk hpk (le_trans hm (le_max_left _ _)) ?_ hrest
      refine max_le hm1 ?_
      rw [div_le_one hpk]
      linarith
  
/-- On a monotonically non-decreasing tail starting at the current peak, the
drawdown fold never increases its accumulator. -/
theorem drawdown_fold_monotone (l : List ℚ) :
    ∀ (m pk : ℚ), 0 < pk → 0 ≤ m → List.Chain' (· ≤ ·) (pk :: l) →
      (l.foldl
        (fun acc value =>
          let maxDrawdown := acc.1
          let peak := acc.2
          if peak < value then (maxDrawdown, value)
          else if 0 < peak then (max maxDrawdown ((peak - value) / peak), peak)
          else (maxDrawdown, peak))
        (m, pk)).1 = m := by
  induction l with
  | nil => intro m pk _ _ _; rfl
  | cons v rest ih =>
    intro m pk hpk hm hchain
    rw [List.chain'_cons] at hchain
    obtain ⟨hpv, hchain'⟩ := hchain
    simp only [List.foldl_cons]
    by_cases hlt : pk < v
    · rw [if_pos hlt]
      exact ih m v (lt_trans hpk hlt) hm hchain'
    · have hveq : v = pk := le_antisymm (not_lt.mp hlt) hpv
      subst hveq
      rw [if_neg hlt, if_pos hpk, sub_self, zero_div, max_eq_left hm]
      exact ih m v hpk hm hchain'

/-- C9 (confirmed): for a non-empty, all-positive equity curve,
`calculateMaxDrawdown` lies in `[0, 1]`, equals the claim's formula — the
maximum over `i` of `(peak_i - value_i) / peak_i` with `peak_i` the running
maximum initialized to the first value — and is exactly `0` on a
monotonically non-decreasing curve. -/
theorem calculateMaxDrawdown_meets_spec (equityCurve : List ℚ)
    (hne : equityCurve ≠ []) (hpos : ∀ v ∈ equityCurve, 0 < v) :
    0 ≤ calculateMaxDrawdown equityCurve ∧
    calculateMaxDrawdown equityCurve ≤ 1 ∧
    calculateMaxDrawdown equityCurve = maxDrawdownSpec equityCurve ∧
    (List.Chain' (· ≤ ·) equityCurve → calculateMaxDrawdown equityCurve = 0) := by
  match equityCurve, hne with
  | firstValue :: rest, _ =>
    have hfirst : 0 < firstValue := hpos firstValue (by simp)
    have hbounds := drawdown_fold_bounds (firstValue :: rest) 0 firstValue hfirst
      le_rfl zero_le_one hpos
    refine ⟨hbounds.1, hbounds.2, ?_, ?_⟩
    · exact drawdown_fold_eq_terms (firstValue :: rest) 0 firstValue hfirst le_rfl
    · intro hchain
      refine drawdown_fold_monotone (firstValue :: rest) 0 firstValue hfirst le_rfl ?_
      rw [List.chain'_cons]
      exact ⟨le_rfl, hchain⟩

/-- C9 (witness): the theorem applied to the concrete curve
`[100, 80, 120]`. -/
theorem c9_witness :
    0 ≤ calculateMaxDrawdown [100, 80, 120] ∧
    calculateMaxDrawdown [100, 80, 120] ≤ 1 ∧
    calculateMaxDrawdown [100, 80, 120] = maxDrawdownSpec [100, 80, 120] ∧
    (List.Chain' (· ≤ ·) ([100, 80, 120] : List ℚ) →
      calculateMaxDrawdown [100, 80, 120] = 0) :=
  calculateMaxDrawdown_meets_spec [100, 80, 120] (by decide) (by decide)

/-- Folding a step that preserves an invariant preserves it. -/
theorem foldl_preserves {α : Type} {β : Type} (P : β → Prop) (f : β → α → β)
    (hstep : ∀ s a, P s → P (f s a)) :
    ∀ (l : List α) (s : β), P s → P (l.foldl f s) := by
  intro l
  induction l with
  | nil => intro s hs; exact hs
  | cons a t ih => intro s hs; exact ih (f s a) (hstep s a hs)

/-- Whatever `findClosestFearGreedData` returns is a member of the input
sequence. -/
theorem findClosestFearGreedData_mem (date : Int) (l : List FearGreedDataPoint)
    (x : FearGreedDataPoint) (h : findClosestFearGreedData date l = some x) : x ∈ l := by
  unfold findClosestFearGreedData at h
  split at h
  · exact absurd h (by simp)
  · split at h
    · next hfind => exact List.mem_of_find?_eq_some (Option.some_injective _ h ▸ hfind)
    · split at h
      · next => exact List.get?_mem h
      · exact absurd h (by simp)

/-- `buyAllCash` leaves the contribution accounting fields unchanged. -/
theorem buyAllCash_counters (cd : MarketDataPoint) (s : SimState) :
    (buyAllCash cd s).totalInvested = s.totalInvested ∧
    (buyAllCash cd s).accumulatedCash = s.accumulatedCash ∧
    (buyAllCash cd s).totalContributions = s.totalContributions := by
  simp only [buyAllCash]
  split_ifs <;> exact ⟨rfl, rfl, rfl⟩

/-- `finalSweep` leaves the contribution accounting fields unchanged. -/
theorem finalSweep_counters (fd : MarketDataPoint) (s : SimState) :
    (finalSweep fd s).totalInvested = s.totalInvested ∧
    (finalSweep fd s).accumulatedCash = s.accumulatedCash ∧
    (finalSweep fd s).totalContributions = s.totalContributions := by
  simp only [finalSweep]
  split_ifs <;> exact ⟨rfl, rfl, rfl⟩

/-- `sellBlock` leaves the contribution accounting fields unchanged. -/
theorem sellBlock_counters (p : BacktestParams) (cd : MarketDataPoint)
    (fg : FearGreedDataPoint) (s : SimState) :
    (sellBlock p cd fg s).totalInvested = s.totalInvested ∧
    (sellBlock p cd fg s).accumulatedCash = s.accumulatedCash ∧
    (sellBlock p cd fg s).totalContributions = s.totalContributions := by
  unfold sellBlock
  repeat' first
    | exact ⟨rfl, rfl, rfl⟩
    | split
    | dsimp only

/-- `lumpSumBuyBlock` leaves the contribution accounting fields unchanged. -/
theorem lumpSumBuyBlock_counters (p : BacktestParams) (cd : MarketDataPoint)
    (fg : FearGreedDataPoint) (b₁ b₂ : Bool) (s : SimState) :
    (lumpSumBuyBlock p cd fg b₁ b₂ s).totalInvested = s.totalInvested ∧
    (lumpSumBuyBlock p cd fg b₁ b₂ s).accumulatedCash = s.accumulatedCash ∧
    (lumpSumBuyBlock p cd fg b₁ b₂ s).totalContributions = s.totalContributions := by
  simp only [lumpSumBuyBlock]
  split_ifs <;> exact ⟨rfl, rfl, rfl⟩

/-- The sell branch preserves the contribution accounting. -/
theorem sellBlock_accounting (p : BacktestParams) (cd : MarketDataPoint)
    (fg : FearGreedDataPoint) (s : SimState) (h : ContributionAccounting p s) :
    ContributionAccounting p (sellBlock p cd fg s) := by
  obtain ⟨heq, hl⟩ := h
  have hc := sellBlock_counters p cd fg s
  refine ⟨?_, fun ht => ?_⟩
  · rw [hc.1, hc.2.1, hc.2.2]; exact heq
  · rw [hc.2.1, hc.2.2]; exact hl ht

/-- The lump-sum buy branch preserves the contribution accounting. -/
theorem lumpSumBuyBlock_accounting (p : BacktestParams) (cd : MarketDataPoint)
    (fg : FearGreedDataPoint) (b₁ b₂ : Bool) (s : SimState)
    (h : ContributionAccounting p s) :
    ContributionAccounting p (lumpSumBuyBlock p cd fg b₁ b₂ s) := by
  obtain ⟨heq, hl⟩ := h
  have hc := lumpSumBuyBlock_counters p cd fg b₁ b₂ s
  refine ⟨?_, fun ht => ?_⟩
  · rw [hc.1, hc.2.1, hc.2.2]; exact heq
  · rw [hc.2.1, hc.2.2]; exact hl ht

/-- `buyAllCash` preserves the contribution accounting. -/
theorem buyAllCash_accounting (p : BacktestParams) (cd : MarketDataPoint) (s : SimState)
    (h : ContributionAccounting p s) : ContributionAccounting p (buyAllCash cd s) := by
  obtain ⟨heq, hl⟩ := h
  have hc := buyAllCash_counters cd s
  refine ⟨?_, fun ht => ?_⟩
  · rw [hc.1, hc.2.1, hc.2.2]; exact heq
  · rw [hc.2.1, hc.2.2]; exact hl ht

/-- A fired weekly contribution (periodic mode) preserves the contribution
accounting: the regular amount is counted exactly once, a deferred release
moves cash from `accumulatedCash` into `totalInvested`. -/
theorem contributionFire_accounting (p : BacktestParams) (md : List MarketDataPoint)
    (i : Nat) (cd : MarketDataPoint) (fg : Option FearGreedDataPoint) (s : SimState)
    (hlump : p.useLumpSum = false) (h : ContributionAccounting p s) :
    ContributionAccounting p (contributionFire p md i cd fg s) := by
  obtain ⟨heq, -⟩ := h
  rw [hlump] at heq
  simp only [Bool.false_eq_true, if_false] at heq
  simp only [contributionFire]
  split
  · apply buyAllCash_accounting
    refine ⟨?_, fun ht => by rw [ht] at hlump; exact absurd hlump (by simp)⟩
    simp only [apply_ite SimState.totalInvested, apply_ite SimState.accumulatedCash,
      apply_ite SimState.totalContributions, hlump, Bool.false_eq_true, if_false]
    split_ifs with hfold
    · push_cast
      linear_combination heq
    · push_cast
      linear_combination heq
  · refine ⟨?_, fun ht => by rw [ht] at hlump; exact absurd hlump (by simp)⟩
    simp only [hlump, Bool.false_eq_true, if_false]
    push_cast
    linear_combination heq

/-- The standalone accumulated-cash release preserves the contribution
accounting. -/
theorem accumulatedCashRelease_accounting (p : BacktestParams) (cd : MarketDataPoint)
    (fg : FearGreedDataPoint) (inCooldown : Bool) (s : SimState)
    (h : ContributionAccounting p s) :
    ContributionAccounting p (accumulatedCashRelease p cd fg inCooldown s) := by
  obtain ⟨heq, hl⟩ := h
  simp only [accumulatedCashRelease]
  split_ifs with hcond
  · apply buyAllCash_accounting
    refine ⟨?_, fun ht => absurd ht (by simpa using hcond.1)⟩
    simpa using heq
  · exact ⟨heq, hl⟩

/-- The contribution scheduling step preserves the contribution accounting. -/
theorem contributionStep_accounting (p : BacktestParams) (md : List MarketDataPoint)
    (i : Nat) (cd : MarketDataPoint) (fg : Option FearGreedDataPoint) (s : SimState)
    (h : ContributionAccounting p s) :
    ContributionAccounting p (contributionStep p md i cd fg s) := by
  unfold contributionStep
  split_ifs with hc
  · refine contributionFire_accounting p md i cd fg s ?_ h
    cases hb : p.useLumpSum with
    | false => rfl
    | true => exact absurd hb hc.1
  · exact h

/-- The equity-curve append preserves the contribution accounting. -/
theorem equityAppend_accounting (p : BacktestParams) (cd : MarketDataPoint) (s : SimState)
    (h : ContributionAccounting p s) : ContributionAccounting p (equityAppend cd s) := h

/-- The post-lookup day body preserves the contribution accounting. -/
theorem dayTail_accounting (p : BacktestParams) (cool : Nat) (md : List MarketDataPoint)
    (i : Nat) (cd : MarketDataPoint) (fgt : Option FearGreedDataPoint) (s : SimState)
    (h : ContributionAccounting p s) :
    ContributionAccounting p (dayTail p cool md i cd fgt s) := by
  unfold dayTail
  cases fgt with
  | none => exact equityAppend_accounting _ _ _ (contributionStep_accounting _ _ _ _ _ _ h)
  | some fg =>
    exact lumpSumBuyBlock_accounting _ _ _ _ _ _
      (accumulatedCashRelease_accounting _ _ _ _ _
        (sellBlock_accounting _ _ _ _
          (equityAppend_accounting _ _ _ (contributionStep_accounting _ _ _ _ _ _ h))))

/-- One simulated day preserves the contribution accounting. -/
theorem stepDay_accounting (p : BacktestParams) (cool : Nat) (md : List MarketDataPoint)
    (s : SimState) (i : Nat) (h : ContributionAccounting p s) :
    ContributionAccounting p (stepDay p cool md s i) := by
  unfold stepDay
  split
  · exact h
  · exact dayTail_accounting _ _ _ _ _ _ _ h

/-- `buyAllCash` appends only buy trades. -/
theorem buyAllCash_buysOnly (cd : MarketDataPoint) (s : SimState) (h : BuysOnly s) :
    BuysOnly (buyAllCash cd s) := by
  simp only [buyAllCash]
  split_ifs with h1 h2
  · intro t ht
    rcases List.mem_append.mp ht with h' | h'
    · exact h t h'
    · rw [List.eq_of_mem_singleton h']
  · exact h
  · exact h

/-- Under `extreme-fear-hold` the sell branch is a no-op. -/
theorem sellBlock_skip_hold (p : BacktestParams) (cd : MarketDataPoint)
    (fg : FearGreedDataPoint) (s : SimState)
    (hv : p.strategyVariant = .extremeFearHold) : sellBlock p cd fg s = s := by
  simp only [sellBlock]
  rw [if_neg]
  simp [hv]

/-- The accumulated-cash release appends only buy trades. -/
theorem accumulatedCashRelease_buysOnly (p : BacktestParams) (cd : MarketDataPoint)
    (fg : FearGreedDataPoint) (b : Bool) (s : SimState) (h : BuysOnly s) :
    BuysOnly (accumulatedCashRelease p cd fg b s) := by
  simp only [accumulatedCashRelease]
  split_ifs with hc
  · exact buyAllCash_buysOnly _ _ h
  · exact h

/-- The lump-sum buy branch appends only buy trades. -/
theorem lumpSumBuyBlock_buysOnly (p : BacktestParams) (cd : MarketDataPoint)
    (fg : FearGreedDataPoint) (b₁ b₂ : Bool) (s : SimState) (h : BuysOnly s) :
    BuysOnly (lumpSumBuyBlock p cd fg b₁ b₂ s) := by
  simp only [lumpSumBuyBlock]
  split_ifs <;>
    first
      | exact h
      | (intro t ht
         rcases List.mem_append.mp ht with h' | h'
         · exact h t h'
         · rw [List.eq_of_mem_singleton h'])

/-- A fired contribution appends only buy trades. -/
theorem contributionFire_buysOnly (p : BacktestParams) (md : List MarketDataPoint)
    (i : Nat) (cd : MarketDataPoint) (fg : Option FearGreedDataPoint) (s : SimState)
    (h : BuysOnly s) : BuysOnly (contributionFire p md i cd fg s) := by
  simp only [contributionFire]
  split
  · split_ifs <;> exact buyAllCash_buysOnly _ _ h
  · exact h

/-- The contribution scheduling step appends only buy trades. -/
theorem contributionStep_buysOnly (p : BacktestParams) (md : List MarketDataPoint)
    (i : Nat) (cd : MarketDataPoint) (fg : Option FearGreedDataPoint) (s : SimState)
    (h : BuysOnly s) : BuysOnly (contributionStep p md i cd fg s) := by
  simp only [contributionStep]
  split_ifs with hc
  · exact contributionFire_buysOnly _ _ _ _ _ _ h
  · exact h

/-- Under `extreme-fear-hold`, one simulated day appends only buy trades. -/
theorem stepDay_buysOnly (p : BacktestParams) (cool : Nat) (md : List MarketDataPoint)
    (s : SimState) (i : Nat) (hv : p.strategyVariant = .extremeFearHold)
    (h : BuysOnly s) : BuysOnly (stepDay p cool md s i) := by
  unfold stepDay
  split
  · exact h
  · unfold dayTail
    split
    · exact contributionStep_buysOnly _ _ _ _ _ _ h
    · have hsb : ∀ cd fg s', sellBlock p cd fg s' = s' :=
        fun cd fg s' => sellBlock_skip_hold p cd fg s' hv
      simp only [hsb]
      exact lumpSumBuyBlock_buysOnly _ _ _ _ _ _
        (accumulatedCashRelease_buysOnly _ _ _ _ _
          (contributionStep_buysOnly _ _ _ _ _ _ h))

/-- The final cash sweep appends only buy trades. -/
theorem finalSweep_buysOnly (fd : MarketDataPoint) (s : SimState) (h : BuysOnly s) :
    BuysOnly (finalSweep fd s) := by
  simp only [finalSweep]
  split_ifs with h1 h2
  · intro t ht
    rcases List.mem_append.mp ht with h' | h'
    · exact h t h'
    · rw [List.eq_of_mem_singleton h']
  · exact h
  · exact h

/-- C6 (confirmed): with `strategyVariant = extreme-fear-hold`, no run of
`runBacktestQ` ever appends a sell trade to the trade log, for every price
series, sentiment series and capital/mode parameters. -/
theorem c6_extremeFearHold_never_sells (p : BacktestParams) (res : StrategyResult)
    (hv : p.strategyVariant = .extremeFearHold) (h : runBacktestQ p = some res) :
    ∀ t ∈ res.trades, t.type ≠ TradeType.sell := by
  have hinv : BuysOnly (finalSweep (p.marketData.getLastD ⟨0, 0⟩)
      (simStateAfter p p.marketData.length)) := by
    apply finalSweep_buysOnly
    apply foldl_preserves (BuysOnly) _ (fun s i hs => stepDay_buysOnly p _ _ s i hv hs)
    intro t ht
    simp [initState] at ht
  unfold runBacktestQ at h
  split at h
  · exact absurd h (by simp)
  · next finalDay hlast =>
    simp only [Option.some.injEq] at h
    subst h
    intro t ht hsell
    have hbuy : t.type = TradeType.buy := by
      refine hinv t ?_
      rw [show p.marketData.getLastD ⟨0, 0⟩ = finalDay from by
        rw [List.getLastD_eq_getLast?, hlast]; rfl]
      exact ht
    rw [hbuy] at hsell
    exact absurd hsell (by simp)

/-- C2 (amended): after every run, `totalInvested` equals the lump-sum
capital (if `useLumpSum`) plus the regular weekly-contribution amount once
per fired contribution — whether deployed immediately, released later from
accumulated cash, or still accumulated at the end — and therefore does NOT
include the extra amount of doubled (extreme-fear) contributions, which is
injected into cash without being counted. -/
theorem c2_totalInvested_counts_regular_contributions (p : BacktestParams)
    (res : StrategyResult) (h : runBacktestQ p = some res) :
    res.totalInvested = (if p.useLumpSum then p.initialCapital else 0) +
      p.weeklyContribution * (res.totalContributions : ℚ) := by
  have hca : ContributionAccounting p (simStateAfter p p.marketData.length) := by
    apply foldl_preserves (ContributionAccounting p) _
      (fun s i hs => stepDay_accounting p _ _ s i hs)
    constructor
    · simp [initState, ContributionAccounting]
    · intro ht
      exact ⟨rfl, rfl⟩
  unfold runBacktestQ at h
  split at h
  · exact absurd h (by simp)
  · next finalDay hlast =>
    simp only [Option.some.injEq] at h
    subst h
    have hsw := finalSweep_counters finalDay (simStateAfter p p.marketData.length)
    obtain ⟨heq, hclause⟩ := hca
    rw [mkStrategyResult_totalInvested, mkStrategyResult_totalContributions]
    rw [hsw.1, hsw.2.1, hsw.2.2]
    cases hb : p.useLumpSum with
    | false =>
      rw [hb] at heq
      simp only [hb, Bool.false_eq_true, not_false_eq_true, if_true, if_false] at heq ⊢
      exact heq
    | true =>
      obtain ⟨hacc, -⟩ := hclause hb
      rw [hb] at heq
      rw [hacc] at heq
      simp only [hb, not_true_eq_false, if_true, if_false] at heq ⊢
      simpa using heq

/-- C2 (amended, witness): the theorem applied to the concrete `c2p` run
(one fired, doubled contribution: `totalInvested` is `0 + 500 * 1`). -/
theorem c2_witness :
    c2res.totalInvested = (if c2p.useLumpSum then c2p.initialCapital else 0) +
      c2p.weeklyContribution * (c2res.totalContributions : ℚ) :=
  c2_totalInvested_counts_regular_contributions c2p c2res (by decide)

/-- C6 (witness): the theorem applied to the concrete `c6p` run, whose
single trade is its first log entry. -/
theorem c6_witness : (c6res.trades.headD emptyTrade).type ≠ TradeType.sell :=
  c6_extremeFearHold_never_sells c6p c6res rfl (by decide)
    (c6res.trades.headD emptyTrade) (by decide)

/-- `buyAllCash` preserves trade-log well-formedness. -/
theorem buyAllCash_wf (cd : MarketDataPoint) (s : SimState)
    (h : TradeLogWellFormed s) : TradeLogWellFormed (buyAllCash cd s) := by
  obtain ⟨hempty, hhead⟩ := h
  simp only [buyAllCash]
  split_ifs with h1 h2
  · constructor
    · intro hts
      exact absurd hts (by simp)
    · intro t ht
      cases htr : s.trades with
      | nil =>
        rw [htr] at ht
        simp only [List.nil_append, List.head?_cons, Option.some.injEq] at ht
        rw [← ht]
      | cons a tl =>
        rw [htr] at ht
        simp only [List.cons_append, List.head?_cons, Option.some.injEq] at ht
        rw [← ht]
        exact hhead a (by rw [htr]; rfl)
  · exact ⟨hempty, hhead⟩
  · exact ⟨hempty, hhead⟩

/-- The final sweep preserves trade-log well-formedness. -/
theorem finalSweep_wf (fd : MarketDataPoint) (s : SimState)
    (h : TradeLogWellFormed s) : TradeLogWellFormed (finalSweep fd s) := by
  obtain ⟨hempty, hhead⟩ := h
  simp only [finalSweep]
  split_ifs with h1 h2
  · constructor
    · intro hts
      exact absurd hts (by simp)
    · intro t ht
      cases htr : s.trades with
      | nil =>
        rw [htr] at ht
        simp only [List.nil_append, List.head?_cons, Option.some.injEq] at ht
        rw [← ht]
      | cons a tl =>
        rw [htr] at ht
        simp only [List.cons_append, List.head?_cons, Option.some.injEq] at ht
        rw [← ht]
        exact hhead a (by rw [htr]; rfl)
  · exact ⟨hempty, hhead⟩
  · exact ⟨hempty, hhead⟩

/-- The lump-sum buy branch preserves trade-log well-formedness. -/
theorem lumpSumBuyBlock_wf (p : BacktestParams) (cd : MarketDataPoint)
    (fg : FearGreedDataPoint) (b₁ b₂ : Bool) (s : SimState)
    (h : TradeLogWellFormed s) : TradeLogWellFormed (lumpSumBuyBlock p cd fg b₁ b₂ s) := by
  obtain ⟨hempty, hhead⟩ := h
  simp only [lumpSumBuyBlock]
  split_ifs <;>
    first
      | exact ⟨hempty, hhead⟩
      | (constructor
         · intro hts
           exact absurd hts (by simp)
         · intro t ht
           cases htr : s.trades with
           | nil =>
             rw [htr] at ht
             simp only [List.nil_append, List.head?_cons, Option.some.injEq] at ht
             rw [← ht]
           | cons a tl =>
             rw [htr] at ht
             simp only [List.cons_append, List.head?_cons, Option.some.injEq] at ht
             rw [← ht]
             exact hhead a (by rw [htr]; rfl))

/-- The sell branch preserves trade-log well-formedness: it requires held
shares, which (by the invariant) implies the log already holds a buy. -/
theorem sellBlock_wf (p : BacktestParams) (cd : MarketDataPoint)
    (fg : FearGreedDataPoint) (s : SimState)
    (h : TradeLogWellFormed s) : TradeLogWellFormed (sellBlock p cd fg s) := by
  obtain ⟨hempty, hhead⟩ := h
  simp only [sellBlock]
  by_cases h1 : p.strategyVariant ≠ StrategyVariant.extremeFearHold ∧ 0 < s.shares
  case neg => rw [if_neg h1]; exact ⟨hempty, hhead⟩
  case pos =>
    rw [if_pos h1]
    have htrne : s.trades ≠ [] := by
      intro hteq
      have h0 := (hempty hteq).1
      rw [h0] at h1
      exact absurd h1.2 (lt_irrefl 0)
    cases hlbp : s.lastBuyPrice with
    | none => simp only [hlbp]; exact ⟨hempty, hhead⟩
    | some lbp =>
      simp only [hlbp]
      split_ifs <;>
        first
          | exact ⟨hempty, hhead⟩
          | (constructor
             · intro hts
               exact absurd hts (by simp)
             · intro t ht
               cases htr : s.trades with
               | nil => exact absurd htr htrne
               | cons a tl =>
                 rw [htr] at ht
                 simp only [List.cons_append, List.head?_cons, Option.some.injEq] at ht
                 rw [← ht]
                 exact hhead a (by rw [htr]; rfl))

/-- The accumulated-cash release preserves trade-log well-formedness. -/
theorem accumulatedCashRelease_wf (p : BacktestParams) (cd : MarketDataPoint)
    (fg : FearGreedDataPoint) (b : Bool) (s : SimState)
    (h : TradeLogWellFormed s) : TradeLogWellFormed (accumulatedCashRelease p cd fg b s) := by
  simp only [accumulatedCashRelease]
  split_ifs with hc
  · exact buyAllCash_wf _ _ ⟨fun hts => (h.1 hts).imp id id, h.2⟩
  · exact h

/-- A fired contribution preserves trade-log well-formedness. -/
theorem contributionFire_wf (p : BacktestParams) (md : List MarketDataPoint)
    (i : Nat) (cd : MarketDataPoint) (fg : Option FearGreedDataPoint) (s : SimState)
    (h : TradeLogWellFormed s) : TradeLogWellFormed (contributionFire p md i cd fg s) := by
  simp only [contributionFire]
  split
  · split_ifs <;> exact buyAllCash_wf _ _ ⟨fun hts => (h.1 hts).imp id id, h.2⟩
  · exact ⟨fun hts => (h.1 hts).imp id id, h.2⟩

/-- The contribution scheduling step preserves trade-log well-formedness. -/
theorem contributionStep_wf (p : BacktestParams) (md : List MarketDataPoint)
    (i : Nat) (cd : MarketDataPoint) (fg : Option FearGreedDataPoint) (s : SimState)
    (h : TradeLogWellFormed s) : TradeLogWellFormed (contributionStep p md i cd fg s) := by
  simp only [contributionStep]
  split_ifs with hc
  · exact contributionFire_wf _ _ _ _ _ _ h
  · exact h

/-- One simulated day preserves trade-log well-formedness. -/
theorem stepDay_wf (p : BacktestParams) (cool : Nat) (md : List MarketDataPoint)
    (s : SimState) (i : Nat) (h : TradeLogWellFormed s) :
    TradeLogWellFormed (stepDay p cool md s i) := by
  unfold stepDay
  split
  · exact h
  · unfold dayTail
    split
    · exact contributionStep_wf _ _ _ _ _ _ h
    · exact lumpSumBuyBlock_wf _ _ _ _ _ _
        (accumulatedCashRelease_wf _ _ _ _ _
          (sellBlock_wf _ _ _ _
            (contributionStep_wf _ _ _ _ _ _ h)))

/-- C10 (confirmed): in every trade log returned by `runBacktestQ`, the first
trade (if any) is a buy, and every sell trade is preceded in log order by at
least one buy trade — a sell needs held shares and a recorded last-buy
price, both established only by a prior buy. -/
theorem c10_sell_preceded_by_buy (p : BacktestParams) (res : StrategyResult)
    (h : runBacktestQ p = some res) :
    (∀ t, res.trades.head? = some t → t.type = TradeType.buy) ∧
    (∀ i t, res.trades.get? i = some t → t.type = TradeType.sell →
      ∃ j tj, j < i ∧ res.trades.get? j = some tj ∧ tj.type = TradeType.buy) := by
  have hinv : TradeLogWellFormed (finalSweep (p.marketData.getLastD ⟨0, 0⟩)
      (simStateAfter p p.marketData.length)) := by
    apply finalSweep_wf
    apply foldl_preserves TradeLogWellFormed _ (fun s i hs => stepDay_wf p _ _ s i hs)
    exact ⟨fun _ => ⟨rfl, rfl⟩, fun t ht => by simp [initState] at ht⟩
  unfold runBacktestQ at h
  split at h
  · exact absurd h (by simp)
  · next finalDay hlast =>
    simp only [Option.some.injEq] at h
    have hfd : p.marketData.getLastD ⟨0, 0⟩ = finalDay := by
      rw [List.getLastD_eq_getLast?, hlast]; rfl
    rw [hfd] at hinv
    obtain ⟨-, hhead⟩ := hinv
    have htr : res.trades =
        (finalSweep finalDay (simStateAfter p p.marketData.length)).trades := by
      rw [← h]
      rfl
    rw [htr]
    refine ⟨hhead, ?_⟩
    intro i t hget hsell
    cases htr2 : (finalSweep finalDay (simStateAfter p p.marketData.length)).trades with
    | nil =>
      rw [htr2] at hget
      simp at hget
    | cons a tl =>
      have ha : a.type = TradeType.buy := hhead a (by rw [htr2]; rfl)
      have hi0 : i ≠ 0 := by
        intro hi
        subst hi
        rw [htr2] at hget
        simp only [List.get?_cons_zero, Option.some.injEq] at hget
        rw [hget] at ha
        rw [hsell] at ha
        exact absurd ha (by simp)
      exact ⟨0, a, Nat.pos_of_ne_zero hi0, by simp [htr2], ha⟩

/-- C10 (witness): the theorem applied to the concrete `c2p` run; its first
trade is a buy. -/
theorem c10_witness : (c2res.trades.headD emptyTrade).type = TradeType.buy :=
  (c10_sell_preceded_by_buy c2p c2res (by decide)).1
    (c2res.trades.headD emptyTrade) (by decide)

/-- `buyAllCash` keeps the ledger nonnegative: a buy spends exactly the
available cash. -/
theorem buyAllCash_ledger (cd : MarketDataPoint) (s : SimState)
    (hclose : 0 < cd.close) (h : LedgerOK s) : LedgerOK (buyAllCash cd s) := by
  obtain ⟨hc, hs, ha⟩ := h
  simp only [buyAllCash]
  split_ifs with h1 h2
  · refine ⟨?_, ?_, ha⟩
    · show 0 ≤ s.cash - s.cash / cd.close * cd.close
      rw [div_mul_cancel₀ _ (ne_of_gt hclose), sub_self]
    · exact add_nonneg hs (div_nonneg hc (le_of_lt hclose))
  · exact ⟨hc, hs, ha⟩
  · exact ⟨hc, hs, ha⟩

/-- The final sweep keeps the ledger nonnegative. -/
theorem finalSweep_ledger (fd : MarketDataPoint) (s : SimState)
    (hclose : 0 < fd.close) (h : LedgerOK s) : LedgerOK (finalSweep fd s) := by
  obtain ⟨hc, hs, ha⟩ := h
  simp only [finalSweep]
  split_ifs with h1 h2
  · refine ⟨?_, ?_, ha⟩
    · show 0 ≤ s.cash - s.cash / fd.close * fd.close
      rw [div_mul_cancel₀ _ (ne_of_gt hclose), sub_self]
    · exact add_nonneg hs (div_nonneg hc (le_of_lt hclose))
  · exact ⟨hc, hs, ha⟩
  · exact ⟨hc, hs, ha⟩

/-- A sell keeps the ledger nonnegative: 30% of a nonnegative position is
sold, and the proceeds are nonnegative. -/
theorem sellBlock_ledger (p : BacktestParams) (cd : MarketDataPoint)
    (fg : FearGreedDataPoint) (s : SimState)
    (hclose : 0 < cd.close) (h : LedgerOK s) : LedgerOK (sellBlock p cd fg s) := by
  obtain ⟨hc, hs, ha⟩ := h
  simp only [sellBlock]
  by_cases h1 : p.strategyVariant ≠ StrategyVariant.extremeFearHold ∧ 0 < s.shares
  case neg => rw [if_neg h1]; exact ⟨hc, hs, ha⟩
  case pos =>
    rw [if_pos h1]
    cases hlbp : s.lastBuyPrice with
    | none => simp only [hlbp]; exact ⟨hc, hs, ha⟩
    | some lbp =>
      simp only [hlbp]
      split_ifs <;>
        first
          | exact ⟨hc, hs, ha⟩
          | (refine ⟨?_, ?_, ha⟩
             · refine add_nonneg hc (mul_nonneg (mul_nonneg hs ?_) (le_of_lt hclose))
               norm_num [SELL_PERCENTAGE]
             · show 0 ≤ s.shares - s.shares * SELL_PERCENTAGE
               rw [show SELL_PERCENTAGE = (0.3 : ℚ) from rfl]
               linarith)

/-- The accumulated-cash release keeps the ledger nonnegative. -/
theorem accumulatedCashRelease_ledger (p : BacktestParams) (cd : MarketDataPoint)
    (fg : FearGreedDataPoint) (b : Bool) (s : SimState)
    (hclose : 0 < cd.close) (h : LedgerOK s) :
    LedgerOK (accumulatedCashRelease p cd fg b s) := by
  obtain ⟨hc, hs, ha⟩ := h
  simp only [accumulatedCashRelease]
  split_ifs with hcond
  · exact buyAllCash_ledger _ _ hclose ⟨add_nonneg hc ha, hs, le_refl 0⟩
  · exact ⟨hc, hs, ha⟩

/-- A fired contribution keeps the ledger nonnegative: the deployed amount
(regular, doubled, and folded-in accumulated cash) is nonnegative. -/
theorem contributionFire_ledger (p : BacktestParams) (md : List MarketDataPoint)
    (i : Nat) (cd : MarketDataPoint) (fg : Option FearGreedDataPoint) (s : SimState)
    (hclose : 0 < cd.close) (hweekly : 0 ≤ p.weeklyContribution) (h : LedgerOK s) :
    LedgerOK (contributionFire p md i cd fg s) := by
  obtain ⟨hc, hs, ha⟩ := h
  simp only [contributionFire]
  split
  · apply buyAllCash_ledger _ _ hclose
    refine ⟨?_, ?_, ?_⟩
    · simp only [apply_ite SimState.cash]
      dsimp only
      split_ifs <;> linarith
    · simp only [apply_ite SimState.shares]
      dsimp only
      split_ifs <;> exact hs
    · simp only [apply_ite SimState.accumulatedCash]
      dsimp only
      split_ifs <;> first | exact le_refl 0 | exact ha
  · exact ⟨hc, hs, add_nonneg ha hweekly⟩

/-- The contribution scheduling step keeps the ledger nonnegative. -/
theorem contributionStep_ledger (p : BacktestParams) (md : List MarketDataPoint)
    (i : Nat) (cd : MarketDataPoint) (fg : Option FearGreedDataPoint) (s : SimState)
    (hclose : 0 < cd.close) (hweekly : 0 ≤ p.weeklyContribution) (h : LedgerOK s) :
    LedgerOK (contributionStep p md i cd fg s) := by
  simp only [contributionStep]
  split_ifs with hcond
  · exact contributionFire_ledger _ _ _ _ _ _ hclose hweekly h
  · exact h

/-- The lump-sum buy keeps the ledger nonnegative: with a sentiment value in
the documented range, the allocation fraction lies in `(0, 0.7]`, so a buy
spends at most 70% of available cash. -/
theorem lumpSumBuyBlock_ledger (p : BacktestParams) (cd : MarketDataPoint)
    (fg : FearGreedDataPoint) (b₁ b₂ : Bool) (s : SimState)
    (hclose : 0 < cd.close) (hval : 0 ≤ fg.value) (h : LedgerOK s) :
    LedgerOK (lumpSumBuyBlock p cd fg b₁ b₂ s) := by
  obtain ⟨hc, hs, ha⟩ := h
  have hfl0 : 0 ≤ max 0 (FEAR_THRESHOLD - fg.value) / FEAR_THRESHOLD :=
    div_nonneg (le_max_left _ _) (by norm_num [FEAR_THRESHOLD])
  have hfl1 : max 0 (FEAR_THRESHOLD - fg.value) / FEAR_THRESHOLD ≤ 1 := by
    rw [div_le_one (by norm_num [FEAR_THRESHOLD] : (0 : ℚ) < FEAR_THRESHOLD)]
    refine max_le (by norm_num [FEAR_THRESHOLD]) ?_
    rw [show FEAR_THRESHOLD = (40 : ℚ) from rfl]
    linarith
  simp only [lumpSumBuyBlock]
  split_ifs <;>
    first
      | exact ⟨hc, hs, ha⟩
      | (refine ⟨?_, ?_, ha⟩
         · rw [div_mul_cancel₀ _ (ne_of_gt hclose)]
           rw [show ALLOCATION_PERCENTAGE = (0.4 : ℚ) from rfl]
           nlinarith [mul_le_mul_of_nonneg_left hfl1 hc, mul_nonneg hc hfl0]
         · refine add_nonneg hs (div_nonneg (mul_nonneg hc ?_) (le_of_lt hclose))
           rw [show ALLOCATION_PERCENTAGE = (0.4 : ℚ) from rfl]
           linarith)

/-- The post-lookup day body keeps the ledger nonnegative. -/
theorem dayTail_ledger (p : BacktestParams) (cool : Nat) (md : List MarketDataPoint)
    (i : Nat) (cd : MarketDataPoint) (fgt : Option FearGreedDataPoint) (s : SimState)
    (hclose : 0 < cd.close) (hweekly : 0 ≤ p.weeklyContribution)
    (hfgt : ∀ f, fgt = some f → 0 ≤ f.value) (h : LedgerOK s) :
    LedgerOK (dayTail p cool md i cd fgt s) := by
  unfold dayTail
  cases fgt with
  | none => exact contributionStep_ledger _ _ _ _ _ _ hclose hweekly h
  | some fg =>
    exact lumpSumBuyBlock_ledger _ _ _ _ _ _ hclose (hfgt fg rfl)
      (accumulatedCashRelease_ledger _ _ _ _ _ hclose
        (sellBlock_ledger _ _ _ _ hclose
          (contributionStep_ledger _ _ _ _ _ _ hclose hweekly h)))

/-- One simulated day keeps the ledger nonnegative. -/
theorem stepDay_ledger (p : BacktestParams) (cool : Nat) (md : List MarketDataPoint)
    (s : SimState) (i : Nat)
    (hmd : ∀ pt ∈ md, 0 < pt.close) (hweekly : 0 ≤ p.weeklyContribution)
    (hfgd : ∀ f ∈ p.fearGreedData, 0 ≤ f.value) (h : LedgerOK s) :
    LedgerOK (stepDay p cool md s i) := by
  unfold stepDay
  split
  · exact h
  · next cd hcd =>
    refine dayTail_ledger _ _ _ _ _ _ _ (hmd cd (List.get?_mem hcd)) hweekly ?_ h
    intro f hf
    exact hfgd f (findClosestFearGreedData_mem _ _ _ hf)

/-- C3 (confirmed): for well-formed inputs (nonnegative capital and
contribution, positive prices, sentiment values in range), cash and shares
are nonnegative after every simulated day, and also after the final cash
sweep — no buy spends more than the available cash and no sell removes more
shares than are held. -/
theorem c3_cash_shares_nonneg (p : BacktestParams) (hvp : ValidParams p) :
    (∀ k, 0 ≤ (simStateAfter p k).cash ∧ 0 ≤ (simStateAfter p k).shares) ∧
    (∀ finalDay, p.marketData.getLast? = some finalDay →
      0 ≤ (finalSweep finalDay (simStateAfter p p.marketData.length)).cash ∧
      0 ≤ (finalSweep finalDay (simStateAfter p p.marketData.length)).shares) := by
  obtain ⟨hcap, hweekly, hmd, hfgd⟩ := hvp
  have hled : ∀ k, LedgerOK (simStateAfter p k) := by
    intro k
    apply foldl_preserves LedgerOK _
      (fun s i hs => stepDay_ledger p _ _ s i hmd hweekly hfgd hs)
    refine ⟨?_, le_refl 0, le_refl 0⟩
    simp only [initState]
    split_ifs
    · exact hcap
    · exact le_refl 0
  refine ⟨fun k => ⟨(hled k).1, (hled k).2.1⟩, fun fd hfd => ?_⟩
  have hfs := finalSweep_ledger fd _
    (hmd fd (List.mem_of_getLast?_eq_some hfd)) (hled p.marketData.length)
  exact ⟨hfs.1, hfs.2.1⟩

/-- C3 (witness): the theorem applied to the concrete `c2p` run after both
simulated days and the final sweep. -/
theorem c3_witness :
    (0 ≤ (simStateAfter c2p 2).cash ∧ 0 ≤ (simStateAfter c2p 2).shares) ∧
    (0 ≤ (finalSweep ⟨7 * 86400000, 100⟩ (simStateAfter c2p c2p.marketData.length)).cash ∧
     0 ≤ (finalSweep ⟨7 * 86400000, 100⟩ (simStateAfter c2p c2p.marketData.length)).shares) :=
  ⟨(c3_cash_shares_nonneg c2p ⟨by decide, by decide, by decide, by decide⟩).1 2,
   (c3_cash_shares_nonneg c2p ⟨by decide, by decide, by decide, by decide⟩).2
     ⟨7 * 86400000, 100⟩ (by decide)⟩

/-- Helper: conclusions of the single-point lump-sum analysis, stated for
the final sweep of any mid-state holding `capital - spent` in cash and
`spent` worth of shares with at most one (buy) trade logged. -/
theorem sweepConclusions (pbar : BacktestParams) (price capital spent : ℚ)
    (s : SimState) (fd : MarketDataPoint)
    (hprice : 0 < price) (hcap : 0 < capital)
    (hlump : pbar.useLumpSum = true)
    (hfd : fd.close = price)
    (hcash : s.cash = capital - spent)
    (hshares : s.shares * price = spent)
    (hacc : s.accumulatedCash = 0)
    (hTI : s.totalInvested = capital)
    (hspent1 : spent ≤ 0.7 * capital)
    (htrades : (s.trades = [] ∧ spent = 0) ∨
               (∃ t1, s.trades = [t1] ∧ t1.type = TradeType.buy ∧ t1.value = spent ∧ 0 < spent)) :
    (∀ t ∈ (mkStrategyResult pbar fd (finalSweep fd s)).trades, t.type = TradeType.buy) ∧
    ((mkStrategyResult pbar fd (finalSweep fd s)).trades.map Trade.value).sum = capital ∧
    ((mkStrategyResult pbar fd (finalSweep fd s)).trades.length = 1 ∨
     (mkStrategyResult pbar fd (finalSweep fd s)).trades.length = 2) ∧
    (mkStrategyResult pbar fd (finalSweep fd s)).finalValue = capital ∧
    (mkStrategyResult pbar fd (finalSweep fd s)).totalInvested = capital ∧
    (mkStrategyResult pbar fd (finalSweep fd s)).totalReturn = 0 := by
  have hpne : price ≠ 0 := ne_of_gt hprice
  have hc0 : 0 < s.cash := by
    rw [hcash]
    nlinarith
  have hstb : 0 < s.cash / fd.close := by
    rw [hfd]
    exact div_pos hc0 hprice
  have hsw : finalSweep fd s =
      { s with
        shares := s.shares + s.cash / fd.close
        cash := s.cash - s.cash / fd.close * fd.close
        trades := s.trades ++
          [⟨fd.date, .buy, fd.close, s.cash / fd.close, s.cash / fd.close * fd.close⟩] } := by
    simp only [finalSweep]
    rw [if_pos hc0, if_pos hstb]
  have hval : s.cash / fd.close * fd.close = capital - spent := by
    rw [hfd, div_mul_cancel₀ _ hpne, hcash]
  have hfv : (finalSweep fd s).cash + (finalSweep fd s).shares * fd.close +
      (finalSweep fd s).accumulatedCash = capital := by
    rw [hsw]
    show s.cash - s.cash / fd.close * fd.close +
      (s.shares + s.cash / fd.close) * fd.close + s.accumulatedCash = capital
    rw [hacc, hfd, add_mul, div_mul_cancel₀ _ hpne, hshares, hcash]
    ring
  have hTI' : (mkStrategyResult pbar fd (finalSweep fd s)).totalInvested = capital := by
    rw [mkStrategyResult_totalInvested, hlump]
    simp only [not_true_eq_false, Bool.false_eq_true, if_false, if_true]
    rw [hsw]
    show s.totalInvested = capital
    exact hTI
  refine ⟨?_, ?_, ?_, ?_, hTI', ?_⟩
  · rw [mkStrategyResult_trades, hsw]
    intro t ht
    rcases htrades with ⟨he, -⟩ | ⟨t1, he, hty, -, -⟩ <;> rw [he] at ht
    · simp only [List.nil_append, List.mem_singleton] at ht
      rw [ht]
    · simp only [List.cons_append, List.nil_append, List.mem_cons, List.mem_singleton,
        List.not_mem_nil, or_false] at ht
      rcases ht with h1 | h1
      · rw [h1]; exact hty
      · rw [h1]
  · rw [mkStrategyResult_trades, hsw]
    rcases htrades with ⟨he, hsp⟩ | ⟨t1, he, -, hv1, -⟩ <;> rw [he]
    · simp only [List.nil_append, List.map_cons, List.map_nil, List.sum_cons, List.sum_nil]
      rw [hval, hsp]
      ring
    · simp only [List.cons_append, List.nil_append, List.map_cons, List.map_nil,
        List.sum_cons, List.sum_nil]
      rw [hval, hv1]
      ring
  · rw [mkStrategyResult_trades, hsw]
    rcases htrades with ⟨he, -⟩ | ⟨t1, he, -, -, -⟩ <;> rw [he]
    · left; rfl
    · right; rfl
  · rw [mkStrategyResult_finalValue]
    exact hfv
  · rw [mkStrategyResult_totalReturn]
    have hTIraw : (if ¬pbar.useLumpSum then (finalSweep fd s).totalInvested +
        (finalSweep fd s).accumulatedCash else (finalSweep fd s).totalInvested) = capital := by
      rw [hlump]
      simp only [not_true_eq_false, Bool.false_eq_true, if_false, if_true]
      rw [hsw]
      show s.totalInvested = capital
      exact hTI
    rw [hfv, hTIraw, div_self (ne_of_gt hcap)]
    ring

/-- Helper: on the single trading day of a lump-sum run (no cooldown, no
downtrend), the lump-sum buy branch either does nothing or spends the
fraction `M ∈ (0, 0.7]` of available cash determined by the sentiment-scaled
allocation. -/
theorem lumpSumBuyBlock_single (P : BacktestParams) (PT : MarketDataPoint)
    (fg : FearGreedDataPoint) (s : SimState)
    (hlump : P.useLumpSum = true) (hcash : 0 < s.cash) (hval : 0 ≤ fg.value)
    (hclose : 0 < PT.close) :
    lumpSumBuyBlock P PT fg false false s = s ∨
    ∃ M : ℚ, 0 < M ∧ M ≤ 0.7 ∧
      lumpSumBuyBlock P PT fg false false s =
        { s with
          shares := s.shares + s.cash * M / PT.close
          cash := s.cash - s.cash * M / PT.close * PT.close
          lastBuyDate := some PT.date
          lastBuyPrice := some PT.close
          trades := s.trades ++ [⟨PT.date, .buy, PT.close, s.cash * M / PT.close,
            s.cash * M / PT.close * PT.close⟩] } := by
  have hfl0 : 0 ≤ max 0 (FEAR_THRESHOLD - fg.value) / FEAR_THRESHOLD :=
    div_nonneg (le_max_left _ _) (by norm_num [FEAR_THRESHOLD])
  have hfl1 : max 0 (FEAR_THRESHOLD - fg.value) / FEAR_THRESHOLD ≤ 1 := by
    rw [div_le_one (by norm_num [FEAR_THRESHOLD] : (0 : ℚ) < FEAR_THRESHOLD)]
    refine max_le (by norm_num [FEAR_THRESHOLD]) ?_
    rw [show FEAR_THRESHOLD = (40 : ℚ) from rfl]
    linarith
  simp only [lumpSumBuyBlock]
  rw [if_pos hlump]
  by_cases hSB : (if P.strategyVariant = StrategyVariant.default ∧ fg.value ≤ FEAR_THRESHOLD
      then true
      else if P.strategyVariant = StrategyVariant.extremeOnly ∧
          fg.value ≤ EXTREME_FEAR_THRESHOLD then true
      else if P.strategyVariant = StrategyVariant.extremeFearHold ∧
          fg.value ≤ EXTREME_FEAR_THRESHOLD then true
      else if P.strategyVariant = StrategyVariant.combined ∧
          (fg.value ≤ FEAR_THRESHOLD ∨ fg.value ≤ EXTREME_FEAR_THRESHOLD) then true
      else false) = true
  case neg =>
    left
    rw [if_neg]
    rintro ⟨h1, -⟩
    exact hSB h1
  case pos =>
    rw [if_pos ⟨hSB, hcash, trivial, Or.inr (Or.inl trivial)⟩]
    by_cases hex : fg.value ≤ EXTREME_FEAR_THRESHOLD
    · rw [if_pos hex]
      have hM0 : 0 < ALLOCATION_PERCENTAGE +
          max 0 (FEAR_THRESHOLD - fg.value) / FEAR_THRESHOLD * 0.3 := by
        rw [show ALLOCATION_PERCENTAGE = (0.4 : ℚ) from rfl]
        nlinarith
      have hM1 : ALLOCATION_PERCENTAGE +
          max 0 (FEAR_THRESHOLD - fg.value) / FEAR_THRESHOLD * 0.3 ≤ 0.7 := by
        rw [show ALLOCATION_PERCENTAGE = (0.4 : ℚ) from rfl]
        nlinarith
      rw [if_pos (div_pos (mul_pos hcash hM0) hclose)]
      right
      exact ⟨_, hM0, hM1, rfl⟩
    · rw [if_neg hex]
      have hM0 : 0 < ALLOCATION_PERCENTAGE +
          max 0 (FEAR_THRESHOLD - fg.value) / FEAR_THRESHOLD * 0.1 := by
        rw [show ALLOCATION_PERCENTAGE = (0.4 : ℚ) from rfl]
        nlinarith
      have hM1 : ALLOCATION_PERCENTAGE +
          max 0 (FEAR_THRESHOLD - fg.value) / FEAR_THRESHOLD * 0.1 ≤ 0.7 := by
        rw [show ALLOCATION_PERCENTAGE = (0.4 : ℚ) from rfl]
        nlinarith
      rw [if_pos (div_pos (mul_pos hcash hM0) hclose)]
      right
      exact ⟨_, hM0, hM1, rfl⟩

/-- Characterization of every single-point lump-sum run: only buy trades,
their values sum to the initial capital, there are one or two of them,
`finalValue = totalInvested = capital` and `totalReturn = 0`. -/
theorem singlePointRun (d : Int) (price capital : ℚ) (fgd : List FearGreedDataPoint)
    (variant : StrategyVariant) (weekly : ℚ)
    (hprice : 0 < price) (hcap : 0 < capital) (hfgd : ∀ f ∈ fgd, 0 ≤ f.value) :
    ∃ res, runBacktestQ ⟨[⟨d, price⟩], fgd, capital, variant, weekly, true⟩ = some res ∧
      (∀ t ∈ res.trades, t.type = TradeType.buy) ∧
      (res.trades.map Trade.value).sum = capital ∧
      (res.trades.length = 1 ∨ res.trades.length = 2) ∧
      res.finalValue = capital ∧
      res.totalInvested = capital ∧
      res.totalReturn = 0 := by
  have hpne : price ≠ 0 := ne_of_gt hprice
  have hrun : runBacktestQ ⟨[⟨d, price⟩], fgd, capital, variant, weekly, true⟩ =
      some (mkStrategyResult ⟨[⟨d, price⟩], fgd, capital, variant, weekly, true⟩ ⟨d, price⟩
        (finalSweep ⟨d, price⟩ (simStateAfter ⟨[⟨d, price⟩], fgd, capital, variant, weekly, true⟩ 1))) := rfl
  have hcs : ∀ F, contributionStep ⟨[⟨d, price⟩], fgd, capital, variant, weekly, true⟩ [⟨d, price⟩] 0 ⟨d, price⟩ F (initState ⟨[⟨d, price⟩], fgd, capital, variant, weekly, true⟩ ⟨d, price⟩) = (initState ⟨[⟨d, price⟩], fgd, capital, variant, weekly, true⟩ ⟨d, price⟩) := by
    intro F
    simp [contributionStep]
  have hmid : simStateAfter ⟨[⟨d, price⟩], fgd, capital, variant, weekly, true⟩ 1 =
      dayTail ⟨[⟨d, price⟩], fgd, capital, variant, weekly, true⟩ 20 [⟨d, price⟩] 0 ⟨d, price⟩ (findClosestFearGreedData d fgd) (initState ⟨[⟨d, price⟩], fgd, capital, variant, weekly, true⟩ ⟨d, price⟩) := rfl
  refine ⟨_, hrun, ?_⟩
  cases hF : findClosestFearGreedData d fgd with
  | none =>
    have hmid2 : simStateAfter ⟨[⟨d, price⟩], fgd, capital, variant, weekly, true⟩ 1 = equityAppend ⟨d, price⟩ (initState ⟨[⟨d, price⟩], fgd, capital, variant, weekly, true⟩ ⟨d, price⟩) := by
      rw [hmid, hF]
      simp only [dayTail, hcs]
    exact sweepConclusions _ price capital 0 _ _ hprice hcap rfl rfl
      (by rw [hmid2]; show capital = capital - 0; ring)
      (by rw [hmid2]; show (0 : ℚ) * price = 0; ring)
      (by rw [hmid2]; rfl)
      (by rw [hmid2]; rfl)
      (by positivity)
      (Or.inl ⟨by rw [hmid2]; rfl, rfl⟩)
  | some fg =>
    have hval0 : 0 ≤ fg.value := hfgd fg (findClosestFearGreedData_mem d fgd fg hF)
    have hsell : sellBlock ⟨[⟨d, price⟩], fgd, capital, variant, weekly, true⟩ ⟨d, price⟩ fg (equityAppend ⟨d, price⟩ (initState ⟨[⟨d, price⟩], fgd, capital, variant, weekly, true⟩ ⟨d, price⟩)) = equityAppend ⟨d, price⟩ (initState ⟨[⟨d, price⟩], fgd, capital, variant, weekly, true⟩ ⟨d, price⟩) := by
      simp only [sellBlock]
      rw [if_neg]
      rintro ⟨-, h2⟩
      exact absurd h2 (lt_irrefl 0)
    have hrel : accumulatedCashRelease ⟨[⟨d, price⟩], fgd, capital, variant, weekly, true⟩ ⟨d, price⟩ fg false (equityAppend ⟨d, price⟩ (initState ⟨[⟨d, price⟩], fgd, capital, variant, weekly, true⟩ ⟨d, price⟩)) = equityAppend ⟨d, price⟩ (initState ⟨[⟨d, price⟩], fgd, capital, variant, weekly, true⟩ ⟨d, price⟩) := by
      simp only [accumulatedCashRelease]
      rw [if_neg]
      rintro ⟨h1, -⟩
      exact h1 trivial
    have hmid3 : simStateAfter ⟨[⟨d, price⟩], fgd, capital, variant, weekly, true⟩ 1 =
        lumpSumBuyBlock ⟨[⟨d, price⟩], fgd, capital, variant, weekly, true⟩ ⟨d, price⟩ fg false false (equityAppend ⟨d, price⟩ (initState ⟨[⟨d, price⟩], fgd, capital, variant, weekly, true⟩ ⟨d, price⟩)) := by
      rw [hmid, hF]
      simp only [dayTail, hcs]
      rw [show inCooldownFlag 20 ⟨d, price⟩ (equityAppend ⟨d, price⟩ (initState ⟨[⟨d, price⟩], fgd, capital, variant, weekly, true⟩ ⟨d, price⟩)) = false from rfl,
        show isInDowntrend [⟨d, price⟩] 0 = false from rfl, hsell, hrel]
    rcases lumpSumBuyBlock_single ⟨[⟨d, price⟩], fgd, capital, variant, weekly, true⟩ ⟨d, price⟩ fg (equityAppend ⟨d, price⟩ (initState ⟨[⟨d, price⟩], fgd, capital, variant, weekly, true⟩ ⟨d, price⟩)) rfl hcap hval0 hprice with
      hid | ⟨M, hM0, hM1, hrec⟩
    · have hmid2 : simStateAfter ⟨[⟨d, price⟩], fgd, capital, variant, weekly, true⟩ 1 = equityAppend ⟨d, price⟩ (initState ⟨[⟨d, price⟩], fgd, capital, variant, weekly, true⟩ ⟨d, price⟩) := hmid3.trans hid
      exact sweepConclusions _ price capital 0 _ _ hprice hcap rfl rfl
        (by rw [hmid2]; show capital = capital - 0; ring)
        (by rw [hmid2]; show (0 : ℚ) * price = 0; ring)
        (by rw [hmid2]; rfl)
        (by rw [hmid2]; rfl)
        (by positivity)
        (Or.inl ⟨by rw [hmid2]; rfl, rfl⟩)
    · have hmid4 := hmid3.trans hrec
      refine sweepConclusions _ price capital (capital * M) _ _ hprice hcap rfl rfl
        (by rw [hmid4]
            show capital - capital * M / price * price = capital - capital * M
            rw [div_mul_cancel₀ _ hpne])
        (by rw [hmid4]
            show (0 + capital * M / price) * price = capital * M
            rw [zero_add, div_mul_cancel₀ _ hpne])
        (by rw [hmid4]; rfl)
        (by rw [hmid4]; rfl)
        (by nlinarith [mul_le_mul_of_nonneg_left hM1 (le_of_lt hcap)])
        (Or.inr ⟨⟨d, TradeType.buy, price, capital * M / price, capital * M / price * price⟩,
          by rw [hmid4]; rfl, rfl,
          by show capital * M / price * price = capital * M
             rw [div_mul_cancel₀ _ hpne],
          mul_pos hcap hM0⟩)

/-- C8 (amended): for every single-point price series run in lump-sum mode
(positive price and capital, in-range sentiment values), the run produces
only buy trades whose values sum to exactly the initial capital — one trade
when the day-0 lump-sum buy rule does not fire, two trades (the
sentiment-scaled partial buy plus the final sweep) when it does — and
`finalValue` equals `initialCapital` exactly. -/
theorem c8_singlePoint_consumes_capital (d : Int) (price capital : ℚ)
    (fgd : List FearGreedDataPoint) (variant : StrategyVariant) (weekly : ℚ)
    (hprice : 0 < price) (hcap : 0 < capital) (hfgd : ∀ f ∈ fgd, 0 ≤ f.value) :
    ∃ res, runBacktestQ ⟨[⟨d, price⟩], fgd, capital, variant, weekly, true⟩ = some res ∧
      (∀ t ∈ res.trades, t.type = TradeType.buy) ∧
      (res.trades.map Trade.value).sum = capital ∧
      (res.trades.length = 1 ∨ res.trades.length = 2) ∧
      res.finalValue = capital := by
  obtain ⟨res, h1, h2, h3, h4, h5, -, -⟩ :=
    singlePointRun d price capital fgd variant weekly hprice hcap hfgd
  exact ⟨res, h1, h2, h3, h4, h5⟩

/-- C8 (witness): the amended theorem applied to the concrete `c8p` input
(the two-buy case), with the run evaluated concretely. -/
theorem c8_witness :
    (runBacktestQ c8p).isSome = true ∧
    ((runBacktestQ c8p).getD emptyStrategyResult).finalValue = 1000 := by
  obtain ⟨res, h1, -, -, -, h5⟩ :=
    c8_singlePoint_consumes_capital 0 100 1000 [⟨0, 30⟩] .default 500 (by decide)
      (by decide) (by decide)
  have hc : c8p = ⟨[⟨0, 100⟩], [⟨0, 30⟩], 1000, .default, 500, true⟩ := rfl
  rw [hc, h1]
  exact ⟨rfl, h5⟩

/-- C4 (amended): `runBacktest` has no zero-duration guard.  For a
single-point (zero calendar duration) lump-sum run with positive price and
capital, `totalReturn` is 0 and the annualized-return computation
`Math.pow(1 + totalReturn, 1 / yearFraction) - 1` evaluates, per ECMAScript
semantics (`1 / +0 = +Infinity`, `Math.pow(1, +Infinity) = NaN`), to `NaN`,
which is what the code stores in the returned `StrategyResult` — not a 0 or
"undefined" sentinel. -/
theorem c4_zero_duration_returns_nan (d : Int) (price capital : ℚ)
    (fgd : List FearGreedDataPoint) (variant : StrategyVariant) (weekly : ℚ)
    (hprice : 0 < price) (hcap : 0 < capital) (hfgd : ∀ f ∈ fgd, 0 ≤ f.value) :
    ∃ res, runBacktestQ ⟨[⟨d, price⟩], fgd, capital, variant, weekly, true⟩ = some res ∧
      res.totalReturn = 0 ∧
      annualizedReturnJs res.totalReturn d d = some JsNum.nan := by
  obtain ⟨res, h1, -, -, -, -, -, h7⟩ :=
    singlePointRun d price capital fgd variant weekly hprice hcap hfgd
  refine ⟨res, h1, h7, ?_⟩
  rw [h7]
  have hdz : ((d - d : Int) : ℚ) = 0 := by rw [sub_self]; rfl
  simp [annualizedReturnJs, hdz, jsPowInfExp, jsSub1]

/-- C4 (witness): the amended theorem applied to the concrete `c4p` input. -/
theorem c4_witness :
    annualizedReturnJs ((runBacktestQ c4p).getD emptyStrategyResult).totalReturn 0 0 =
      some JsNum.nan := by
  obtain ⟨res, h1, -, h3⟩ :=
    c4_zero_duration_returns_nan 0 100 1000 [] .default 500 (by decide) (by decide)
      (by decide)
  have hc : c4p = ⟨[⟨0, 100⟩], [], 1000, .default, 500, true⟩ := rfl
  rw [hc, h1]
  simpa using h3
